import Mathlib

/-!
# Scatterplot / lasso / boxplot widget (`boyang.js`)

A shallow embedding of the widget's script.  A JavaScript number is a `JNum`:
`NaN`, the two infinities, or a finite value.  Finite values are exact
rationals, and a finite result whose magnitude reaches the overflow limit of a
double becomes an infinity; what is left out of the model is the rounding of
in-range results and the sign of zero.  The unary plus `+v` applied to a cell is
a parameter `num`.  A cell read `d[attr]` is an `Option String`, `none`
standing for `undefined`.  The libraries (d3, d3-lasso) are modelled from their
documented behaviour.
-/

namespace Boyang

/-! ## JavaScript numbers -/

/-- A JavaScript number; `nan` also stands for `undefined` where a number is
expected. -/
inductive JNum where
  | nan
  | negInf
  | posInf
  | fin (value : ℚ)
  deriving DecidableEq, Repr

/-- The magnitude from which a result rounds to an infinity: `2^1024 - 2^970`. -/
def overflowLimit : ℚ := 2 ^ 1024 - 2 ^ 970

/-- The number an exact result becomes. -/
def JNum.ofRat (r : ℚ) : JNum :=
  if overflowLimit ≤ r then JNum.posInf
  else if r ≤ -overflowLimit then JNum.negInf
  else JNum.fin r

/-- The test `isNaN(x)`. -/
def JNum.isNaN : JNum → Bool
  | JNum.nan => true
  | _ => false

/-- The sign of a number: -1, 0 or 1, and 0 for `NaN`. -/
def JNum.sign : JNum → ℤ
  | JNum.nan => 0
  | JNum.negInf => -1
  | JNum.posInf => 1
  | JNum.fin q => if q < 0 then -1 else if q = 0 then 0 else 1

/-- Unary minus. -/
def JNum.neg : JNum → JNum
  | JNum.nan => JNum.nan
  | JNum.negInf => JNum.posInf
  | JNum.posInf => JNum.negInf
  | JNum.fin q => JNum.fin (-q)

/-- The sum `a + b`. -/
def JNum.add : JNum → JNum → JNum
  | JNum.fin a, JNum.fin b => JNum.ofRat (a + b)
  | JNum.nan, _ => JNum.nan
  | _, JNum.nan => JNum.nan
  | JNum.posInf, JNum.negInf => JNum.nan
  | JNum.negInf, JNum.posInf => JNum.nan
  | JNum.posInf, _ => JNum.posInf
  | _, JNum.posInf => JNum.posInf
  | JNum.negInf, _ => JNum.negInf
  | _, JNum.negInf => JNum.negInf

/-- The difference `a - b`. -/
def JNum.sub (a b : JNum) : JNum := JNum.add a (JNum.neg b)

/-- The product `a * b`; an infinity times zero is `NaN`. -/
def JNum.mul : JNum → JNum → JNum
  | JNum.fin a, JNum.fin b => JNum.ofRat (a * b)
  | JNum.nan, _ => JNum.nan
  | _, JNum.nan => JNum.nan
  | a, b =>
    if a.sign * b.sign = 0 then JNum.nan
    else if 0 < a.sign * b.sign then JNum.posInf
    else JNum.negInf

/-- The quotient `a / b`. -/
def JNum.div : JNum → JNum → JNum
  | JNum.fin a, JNum.fin b =>
    if b = 0 then (if a = 0 then JNum.nan else if 0 < a then JNum.posInf else JNum.negInf)
    else JNum.ofRat (a / b)
  | JNum.nan, _ => JNum.nan
  | _, JNum.nan => JNum.nan
  | JNum.fin _, _ => JNum.fin 0
  | a, JNum.fin b => if b < 0 then JNum.neg a else a
  | _, _ => JNum.nan

/-- The comparison `a < b`; false when either side is `NaN`. -/
def JNum.lt : JNum → JNum → Bool
  | JNum.fin a, JNum.fin b => decide (a < b)
  | JNum.negInf, JNum.fin _ => true
  | JNum.negInf, JNum.posInf => true
  | JNum.fin _, JNum.posInf => true
  | _, _ => false

/-- The comparison `a <= b`; false when either side is `NaN`. -/
def JNum.le : JNum → JNum → Bool
  | JNum.fin a, JNum.fin b => decide (a ≤ b)
  | JNum.nan, _ => false
  | _, JNum.nan => false
  | JNum.negInf, _ => true
  | _, JNum.posInf => true
  | _, _ => false

/-! ## Rows and property access -/

/-- A parsed CSV row object: its own properties, name and cell, in the order of
their creation (the column order), each name once. -/
abbrev Row := List (String × String)

/-- A JavaScript value read from a row: a string, or `none` for `undefined`. -/
abbrev Key := Option String

/-- Property access `d[attr]`. -/
def getAttr : Row → String → Key
  | [], _ => none
  | (name, value) :: rest, attr => if name = attr then some value else getAttr rest attr

/-- The array index a property name denotes, if it is one: a canonical decimal
numeral (no leading zero) below `2^32 - 1`. -/
def arrayIndex (name : String) : Option ℕ :=
  match name.data with
  | [] => none
  | [c] => if c.isDigit then some (c.toNat - 48) else none
  | c :: rest =>
    if c.toNat ≠ 48 ∧ (c :: rest).all Char.isDigit = true then
      (if (c :: rest).foldl (fun n c => 10 * n + (c.toNat - 48)) 0 < 4294967295
        then some ((c :: rest).foldl (fun n c => 10 * n + (c.toNat - 48)) 0) else none)
    else none

/-- The call `Object.keys(d)`: the names that are array indices first, in
ascending numeric order, then the other names in the order of their creation. -/
def objectKeys (d : Row) : List String :=
  ((d.map Prod.fst).filter (fun name => (arrayIndex name).isSome)).insertionSort
      (fun a b => (arrayIndex a).getD 0 ≤ (arrayIndex b).getD 0) ++
    (d.map Prod.fst).filter (fun name => (arrayIndex name).isNone)

/-! ## loadDataset -/

/-- The address `loadDataset` fetches for a dataset identifier. -/
def loadDatasetUrl (dataset : String) : String :=
  if dataset = "penguins_cleaned" then "penguins_cleaned.csv"
  else if dataset = "pokemon" then "pokemon.csv"
  else "/testing/data/" ++ dataset ++ ".csv"

/-! ## populateDropdowns -/

/-- The local constant `quantitativeAttributes` of `populateDropdowns`. -/
def quantitativeAttributes (num : Key → JNum) (columns : List String) (data : List Row) :
    List String :=
  columns.filter (fun col =>
    data.all (fun d => !(num (getAttr d col)).isNaN) && (col != "#") && (col != "Name"))

/-- The local constant `categoricalAttributes` of `populateDropdowns`. -/
def categoricalAttributes (num : Key → JNum) (columns : List String) (data : List Row) :
    List String :=
  columns.filter (fun col => !(quantitativeAttributes num columns data).contains col)

/-- The option lists of the four attribute dropdowns. -/
structure DropdownOptions where
  xAttribute : List String
  yAttribute : List String
  colorAttribute : List String
  boxplotAttribute : List String
  deriving DecidableEq, Repr

/-- The function `populateDropdowns`: the options it leaves in the dropdowns;
`none` when `data[0]` is `undefined` and `Object.keys` throws. -/
def populateDropdowns (num : Key → JNum) (data : List Row) : Option DropdownOptions :=
  match data with
  | [] => none
  | d0 :: _ =>
    let columns := objectKeys d0
    let quantitative := quantitativeAttributes num columns data
    let categorical := categoricalAttributes num columns data
    some
      { xAttribute := quantitative
        yAttribute := quantitative
        boxplotAttribute := quantitative
        colorAttribute := categorical }

/-! ## d3.group -/

/-- One step of the grouping loop: `groups.get(key)` then `push` or `set`. -/
def groupInsert (groups : List (Key × List Row)) (key : Key) (value : Row) :
    List (Key × List Row) :=
  match groups with
  | [] => [(key, [value])]
  | (k, vs) :: rest =>
    if k = key then (k, vs ++ [value]) :: rest else (k, vs) :: groupInsert rest key value

/-- The call `d3.group(values, keyof)`: an insertion-ordered map. -/
def d3group (values : List Row) (keyof : Row → Key) : List (Key × List Row) :=
  values.foldl (fun groups value => groupInsert groups (keyof value) value) []

/-- The call `map.keys()`. -/
def mapKeys (groups : List (Key × List Row)) : List Key := groups.map Prod.fst

/-- The call `map.get(key)`, with `[]` where the map has no entry. -/
def mapGet : List (Key × List Row) → Key → List Row
  | [], _ => []
  | (k, vs) :: rest, key => if k = key then vs else mapGet rest key

/-! ## d3-array statistics -/

/-- The call `d3.min(values)`; `NaN` is skipped and `none` is `undefined`. -/
def d3min (values : List JNum) : Option JNum :=
  values.foldl (fun m value =>
    match m with
    | none => if JNum.le value value then some value else none
    | some x => if JNum.lt value x then some value else some x) none

/-- The call `d3.max(values)`; `NaN` is skipped and `none` is `undefined`. -/
def d3max (values : List JNum) : Option JNum :=
  values.foldl (fun m value =>
    match m with
    | none => if JNum.le value value then some value else none
    | some x => if JNum.lt x value then some value else some x) none

/-- The call `values.sort(d3.ascending)` on numbers: a stable sort by the
comparator, for which a comparison with `NaN` counts as a tie. -/
def sortAscending (values : List JNum) : List JNum :=
  values.insertionSort (fun a b => JNum.lt b a = false)

/-- The call `d3.quantile(values, p)`: `NaN` is dropped, and the R-7 estimate
`value0 + (value1 - value0) * (i - i0)` is read on the numbers in ascending
order at the fractional index `i = (n - 1) * p`. -/
def d3quantile (values : List JNum) (p : ℚ) : Option JNum :=
  let numbers := values.filter (fun value => JNum.le value value)
  let n := numbers.length
  if n = 0 then none
  else if p ≤ 0 ∨ n < 2 then d3min numbers
  else if p ≥ 1 then d3max numbers
  else
    let sorted := sortAscending numbers
    let i : ℚ := ((n : ℚ) - 1) * p
    let i0 : ℕ := ⌊i⌋₊
    let value0 := sorted.getD i0 JNum.nan
    let value1 := sorted.getD (i0 + 1) JNum.nan
    some (JNum.add value0 (JNum.mul (JNum.sub value1 value0) (JNum.fin (i - (i0 : ℚ)))))

/-- The call `d3.median(values)`. -/
def d3median (values : List JNum) : Option JNum := d3quantile values (1 / 2)

/-- A possibly `undefined` number where a number is expected. -/
def toNumber (value : Option JNum) : JNum := value.getD JNum.nan

/-! ## d3 scales -/

/-- A `d3.scaleLinear()` with a two-point domain and range. -/
structure LinearScale where
  domain0 : JNum
  domain1 : JNum
  range0 : ℚ
  range1 : ℚ
  deriving DecidableEq, Repr

/-- The position `(x - a) / (b - a)` of `x` in a domain, one half when the
domain is a single point, `NaN` when its width is. -/
def normalize (a b x : JNum) : JNum :=
  if JNum.sub b a = JNum.fin 0 then JNum.fin (1 / 2)
  else if JNum.sub b a = JNum.nan then JNum.nan
  else JNum.div (JNum.sub x a) (JNum.sub b a)

/-- The interpolation `a * (1 - t) + b * t`. -/
def interpolateNumber (a b : ℚ) (t : JNum) : JNum :=
  JNum.add (JNum.mul (JNum.fin a) (JNum.sub (JNum.fin 1) t)) (JNum.mul (JNum.fin b) t)

/-- Applying a linear scale. -/
def LinearScale.apply (s : LinearScale) (x : JNum) : JNum :=
  if JNum.lt s.domain1 s.domain0 then
    interpolateNumber s.range1 s.range0 (normalize s.domain1 s.domain0 x)
  else
    interpolateNumber s.range0 s.range1 (normalize s.domain0 s.domain1 x)

/-- The palette `d3.schemeCategory10`. -/
def schemeCategory10 : List String :=
  ["#1f77b4", "#ff7f0e", "#2ca02c", "#d62728", "#9467bd",
   "#8c564b", "#e377c2", "#7f7f7f", "#bcbd22", "#17becf"]

/-- Position of the first occurrence of a value in a list (for the domain of an
ordinal scale, `index.get(d)`); the length of the list when it is absent. -/
def firstIndex : List Key → Key → ℕ
  | [], _ => 0
  | k :: rest, d => if k = d then 0 else firstIndex rest d + 1

/-- A call `colorScale(d)` of a `d3.scaleOrdinal(d3.schemeCategory10)` whose
implicit domain is `domain`: the colour and the domain afterwards. -/
def ordinalScale (domain : List Key) (d : Key) : String × List Key :=
  let domain1 := if d ∈ domain then domain else domain ++ [d]
  (schemeCategory10.getD (firstIndex domain1 d % schemeCategory10.length) "", domain1)

/-! ## The drawing surface -/

/-- A leaf element appended to an SVG. -/
inductive Mark where
  | circle (cx cy : JNum) (r : ℚ) (fill : String)
  | rect (x width : ℚ) (y height : JNum) (fill : String) (opacity : ℚ)
  | line (x1 x2 : ℚ) (y1 y2 : JNum) (stroke : String)
  | text (x y : ℚ) (textAnchor : String) (content : Key)
  deriving DecidableEq, Repr

/-- A child of the boxplot SVG. -/
inductive Node where
  | axisLeft (tx : ℚ) (scale : LinearScale)
  | mark (m : Mark)
  | g (tx : ℚ) (children : List Mark)
  deriving DecidableEq, Repr

/-- A circle of the scatterplot with its bound row and its two classes. -/
structure Point where
  datum : Row
  cx : JNum
  cy : JNum
  r : ℚ
  fill : String
  selected : Bool
  not_selected : Bool
  deriving DecidableEq, Repr

/-- The page: the dropdown values, the loaded rows and what is drawn. -/
structure Page where
  currentDataset : List Row
  xAttribute : String
  yAttribute : String
  colorAttribute : String
  boxplotAttribute : String
  points : List Point
  colorKey : List (String × Key)
  boxPlot : Option (List Node)
  selectionCount : Option ℕ
  deriving DecidableEq, Repr

/-! ## drawBoxPlot -/

/-- The horizontal slot `width / groups.length - 20`. -/
def boxWidth (width : ℚ) (groups : ℕ) : ℚ := width / (groups : ℚ) - 20

/-- The array `[min, q1, median, q3, max]` computed for a group. -/
def boxPlotStatistics (data : List JNum) :
    Option JNum × Option JNum × Option JNum × Option JNum × Option JNum :=
  (d3min data, d3quantile data (1 / 4), d3median data, d3quantile data (3 / 4), d3max data)

/-- The sorted values `groupedData.get(group).map(d => +d[boxAttr]).sort(d3.ascending)`. -/
def groupValues (num : Key → JNum) (boxAttr : String) (rows : List Row) : List JNum :=
  sortAscending (rows.map (fun d => num (getAttr d boxAttr)))

/-- The body of `groups.forEach((group, i) => ...)`: the state is the colour
scale's domain and the children of the SVG so far. -/
def boxPlotGroup (num : Key → JNum) (boxAttr : String) (groupedData : List (Key × List Row))
    (height bw : ℚ) (yScale : LinearScale)
    (acc : List Key × List Node) (group : Key) (i : ℕ) : List Key × List Node :=
  let data := groupValues num boxAttr (mapGet groupedData group)
  if data.length < 5 then
    data.foldl (fun acc value =>
      let c := ordinalScale acc.1 group
      (c.2, acc.2 ++ [Node.mark
        (Mark.circle (JNum.fin ((i : ℚ) * bw + 80)) (yScale.apply value) 4 c.1)])) acc
  else
    let (min, q1, median, q3, max) := boxPlotStatistics data
    let c := ordinalScale acc.1 group
    (c.2, acc.2 ++ [Node.g ((i : ℚ) * bw + 80)
      [ Mark.rect (-bw / 4) (bw / 2) (yScale.apply (toNumber q3))
          (JNum.sub (yScale.apply (toNumber q1)) (yScale.apply (toNumber q3))) c.1 (7 / 10),
        Mark.line 0 0 (yScale.apply (toNumber min)) (yScale.apply (toNumber q1)) "black",
        Mark.line 0 0 (yScale.apply (toNumber q3)) (yScale.apply (toNumber max)) "black",
        Mark.line (-bw / 4) (bw / 4) (yScale.apply (toNumber median))
          (yScale.apply (toNumber median)) "black",
        Mark.text (-bw / 4) (height - 30) "middle" group ]])

/-- The loop `array.forEach((item, i) => ...)` from index `i`, threading a state. -/
def forEachFrom {σ α : Type} (f : σ → α → ℕ → σ) : List α → ℕ → σ → σ
  | [], _, s => s
  | a :: rest, i, s => forEachFrom f rest (i + 1) (f s a i)

/-- The children of the SVG that `drawBoxPlot` appends for a non-empty selection,
with the final domain of its colour scale. -/
def boxPlotSvg (num : Key → JNum) (boxAttr colorAttr : String) (selectedData : List Row) :
    List Key × List Node :=
  let width : ℚ := 600
  let height : ℚ := 400
  let groupedData := d3group selectedData (fun d => getAttr d colorAttr)
  let groups := mapKeys groupedData
  let bw := boxWidth width groups.length
  let allValues := selectedData.map (fun d => num (getAttr d boxAttr))
  let yScale : LinearScale :=
    { domain0 := toNumber (d3min allValues), domain1 := toNumber (d3max allValues)
      range0 := height - 50, range1 := 50 }
  forEachFrom (boxPlotGroup num boxAttr groupedData height bw yScale) groups 0
    ([], [Node.axisLeft 50 yScale])

/-- The function `drawBoxPlot`: the old SVG is removed, and a new one is
appended unless the selection is empty. -/
def drawBoxPlot (num : Key → JNum) (selectedData : List Row) (page : Page) : Page :=
  let cleared := { page with boxPlot := none }
  let boxAttr := page.boxplotAttribute
  let colorAttr := page.colorAttribute
  if selectedData.length = 0 then cleared
  else { cleared with boxPlot := some (boxPlotSvg num boxAttr colorAttr selectedData).2 }

/-- The function `updateSelectionCount`. -/
def updateSelectionCount (count : ℕ) (page : Page) : Page :=
  { page with selectionCount := some count }

/-! ## drawScatterPlot, drawColorKey -/

/-- The circles `drawScatterPlot` appends, one per row in dataset order, with
the domain of the colour scale after the last one. -/
def scatterPoints (num : Key → JNum) (xAttr yAttr colorAttr : String) (dataset : List Row) :
    List Key × List Point :=
  let width : ℚ := 600
  let height : ℚ := 400
  let xs := dataset.map (fun d => num (getAttr d xAttr))
  let ys := dataset.map (fun d => num (getAttr d yAttr))
  let xScale : LinearScale :=
    { domain0 := toNumber (d3min xs), domain1 := toNumber (d3max xs)
      range0 := 50, range1 := width - 50 }
  let yScale : LinearScale :=
    { domain0 := toNumber (d3min ys), domain1 := toNumber (d3max ys)
      range0 := height - 50, range1 := 50 }
  dataset.foldl (fun acc d =>
    let c := ordinalScale acc.1 (getAttr d colorAttr)
    (c.2, acc.2 ++ [
      { datum := d
        cx := xScale.apply (num (getAttr d xAttr))
        cy := yScale.apply (num (getAttr d yAttr))
        r := 5
        fill := c.1
        selected := false
        not_selected := false }])) ([], [])

/-- The array `Array.from(new Set(values))`: the distinct values in the order
of their first occurrence. -/
def uniqueValues (values : List Key) : List Key :=
  values.foldl (fun seen v => if v ∈ seen then seen else seen ++ [v]) []

/-- The function `drawColorKey`: one swatch colour and label per distinct value,
the scale being the one the scatterplot has used. -/
def drawColorKey (colorAttr : String) (domain : List Key) (dataset : List Row) :
    List (String × Key) :=
  ((uniqueValues (dataset.map (fun d => getAttr d colorAttr))).foldl (fun acc value =>
    let c := ordinalScale acc.1 value
    (c.2, acc.2 ++ [(c.1, value)])) (domain, [])).2

/-- The function `drawScatterPlot`: the circles and the colour key are replaced;
the boxplot container is not touched. -/
def drawScatterPlot (num : Key → JNum) (page : Page) : Page :=
  let xAttr := page.xAttribute
  let yAttr := page.yAttribute
  let colorAttr := page.colorAttribute
  let drawn := scatterPoints num xAttr yAttr colorAttr page.currentDataset
  { page with
    points := drawn.2
    colorKey := drawColorKey colorAttr drawn.1 page.currentDataset }

/-! ## setupLasso and the dropdown handlers -/

/-- The call `selection.classed(name, value)` on one circle. -/
def Point.classed (pt : Point) (name : String) (value : Bool) : Point :=
  if name = "selected" then { pt with selected := value }
  else if name = "not_selected" then { pt with not_selected := value }
  else pt

/-- The call `classed(name, value)` on the sub-selection of the circles whose
index satisfies `keep`, the first circle of the list having index `j`. -/
def classedWhere (keep : ℕ → Bool) (name : String) (value : Bool) :
    ℕ → List Point → List Point
  | _, [] => []
  | j, pt :: rest =>
    (if keep j then pt.classed name value else pt) :: classedWhere keep name value (j + 1) rest

/-- The data `selection.data()` of the circles whose index satisfies `keep`. -/
def dataWhere (keep : ℕ → Bool) : ℕ → List Point → List Row
  | _, [] => []
  | j, pt :: rest =>
    if keep j then pt.datum :: dataWhere keep (j + 1) rest else dataWhere keep (j + 1) rest

/-- The events the page reacts to.  The lasso library reports, per circle
index, the flags `possible` (during a drag) and `selected` (at its end). -/
inductive Event where
  | lassoStart
  | lassoDraw (possible : ℕ → Bool)
  | lassoEnd (selected : ℕ → Bool)
  | click
  | changeX (value : String)
  | changeY (value : String)
  | changeColor (value : String)
  | changeBoxplot (value : String)

/-- The `start` handler of the lasso. -/
def onLassoStart (page : Page) : Page :=
  { page with
    points := classedWhere (fun _ => true) "selected" false 0
      (classedWhere (fun _ => true) "not_selected" true 0 page.points) }

/-- The `draw` handler of the lasso. -/
def onLassoDraw (possible : ℕ → Bool) (page : Page) : Page :=
  let p1 := classedWhere possible "selected" true 0
    (classedWhere possible "not_selected" false 0 page.points)
  let p2 := classedWhere (fun j => !possible j) "selected" false 0
    (classedWhere (fun j => !possible j) "not_selected" true 0 p1)
  { page with points := p2 }

/-- The `end` handler of the lasso. -/
def onLassoEnd (num : Key → JNum) (selected : ℕ → Bool) (page : Page) : Page :=
  let selectedData := dataWhere selected 0 page.points
  if selectedData.length > 0 then
    updateSelectionCount selectedData.length (drawBoxPlot num selectedData page)
  else
    drawBoxPlot num [] page

/-- The `click` handler of the scatterplot SVG. -/
def onClick (num : Key → JNum) (page : Page) : Page :=
  drawBoxPlot num []
    { page with
      points := classedWhere (fun _ => true) "selected" false 0
        (classedWhere (fun _ => true) "not_selected" false 0 page.points) }

/-- One event: the dropdown takes its new value, then its handler runs. -/
def step (num : Key → JNum) (page : Page) : Event → Page
  | Event.lassoStart => onLassoStart page
  | Event.lassoDraw possible => onLassoDraw possible page
  | Event.lassoEnd selected => onLassoEnd num selected page
  | Event.click => onClick num page
  | Event.changeX value => drawScatterPlot num { page with xAttribute := value }
  | Event.changeY value => drawScatterPlot num { page with yAttribute := value }
  | Event.changeColor value => drawScatterPlot num { page with colorAttribute := value }
  | Event.changeBoxplot value => drawBoxPlot num [] { page with boxplotAttribute := value }

/-- A sequence of events, handled one after the other. -/
def run (num : Key → JNum) (page : Page) (events : List Event) : Page :=
  events.foldl (step num) page

/-! ## Helper definitions for the statements -/

/-- A predicate on index and circle holds along a list whose first index is `j`. -/
def AllFrom (R : ℕ → Point → Prop) : ℕ → List Point → Prop
  | _, [] => True
  | j, pt :: rest => R j pt ∧ AllFrom R (j + 1) rest

/-- The four events of the lasso and the background click. -/
def Event.isGesture : Event → Bool
  | Event.lassoStart => true
  | Event.lassoDraw _ => true
  | Event.lassoEnd _ => true
  | Event.click => true
  | _ => false

/-- Whether the latest event that writes the marks was a background click,
`c` being the answer before the events. -/
def clearedAfter (c : Bool) (events : List Event) : Bool :=
  events.foldl (fun c e =>
    match e with
    | Event.click => true
    | Event.lassoStart => false
    | Event.lassoDraw _ => false
    | _ => c) c

/-- The template path of a test dataset. -/
def testDataPath (dataset : String) : String := "/testing/data/" ++ dataset ++ ".csv"

/-- The test `Number.isFinite(x)`. -/
def JNum.isFinite : JNum → Bool
  | JNum.fin _ => true
  | _ => false

/-- The value of a finite number, and 0 otherwise. -/
def JNum.toRat : JNum → ℚ
  | JNum.fin q => q
  | _ => 0

/-- The reading `+v` on the cells of the sample rows. -/
def sampleNum : Key → JNum
  | some "" => JNum.fin 0
  | some "1" => JNum.fin 1
  | some "2" => JNum.fin 2
  | some "3" => JNum.fin 3
  | some "4" => JNum.fin 4
  | some "5" => JNum.fin 5
  | some "Infinity" => JNum.posInf
  | some "1e308" => JNum.fin (10 ^ 308)
  | some "-1e308" => JNum.fin (-10 ^ 308)
  | _ => JNum.nan

/-- A sample row with a species, an island and two measures. -/
def sampleRow (species island mass len : String) : Row :=
  [("species", species), ("island", island), ("mass", mass), ("len", len)]

/-- A sample page: two rows drawn, nothing selected, no boxplot. -/
def samplePage : Page :=
  drawScatterPlot sampleNum
    { currentDataset := [sampleRow "A" "X" "1" "5", sampleRow "B" "X" "2" "3"]
      xAttribute := "mass"
      yAttribute := "len"
      colorAttribute := "species"
      boxplotAttribute := "mass"
      points := []
      colorKey := []
      boxPlot := none
      selectionCount := none }

/-- The R-7 (linear interpolation) quantile of values listed in ascending order:
with `h = (n - 1) * p`, the value `x[⌊h⌋] + (h - ⌊h⌋) * (x[⌊h⌋ + 1] - x[⌊h⌋])`. -/
def quantileR7 (sorted : List ℚ) (p : ℚ) : ℚ :=
  let h : ℚ := ((sorted.length : ℚ) - 1) * p
  sorted.getD ⌊h⌋₊ 0 + (h - (⌊h⌋₊ : ℚ)) * (sorted.getD (⌊h⌋₊ + 1) 0 - sorted.getD ⌊h⌋₊ 0)

/-- The fill colours an SVG child carries, in document order. -/
def Node.fills : Node → List String
  | Node.axisLeft _ _ => []
  | Node.mark (Mark.circle _ _ _ fill) => [fill]
  | Node.mark (Mark.rect _ _ _ _ fill _) => [fill]
  | Node.mark _ => []
  | Node.g _ children =>
    children.filterMap (fun m =>
      match m with
      | Mark.circle _ _ _ fill => some fill
      | Mark.rect _ _ _ _ fill _ => some fill
      | _ => none)

/-- The vertical scale `drawBoxPlot` builds for a selection. -/
def boxPlotYScale (num : Key → JNum) (boxAttr : String) (selectedData : List Row) :
    LinearScale :=
  { domain0 := toNumber (d3min (selectedData.map (fun d => num (getAttr d boxAttr))))
    domain1 := toNumber (d3max (selectedData.map (fun d => num (getAttr d boxAttr))))
    range0 := 400 - 50
    range1 := 50 }

/-- The state the colour scale and the SVG of `drawBoxPlot` are in when the
loop over the groups reaches index `i`. -/
def boxPlotLoopState (num : Key → JNum) (boxAttr colorAttr : String) (selectedData : List Row)
    (i : ℕ) : List Key × List Node :=
  let groupedData := d3group selectedData (fun d => getAttr d colorAttr)
  forEachFrom
    (boxPlotGroup num boxAttr groupedData 400 (boxWidth 600 (mapKeys groupedData).length)
      (boxPlotYScale num boxAttr selectedData))
    ((mapKeys groupedData).take i) 0
    ([], [Node.axisLeft 50 (boxPlotYScale num boxAttr selectedData)])

/-- Five sample rows of one species, with masses 1 to 5. -/
def fiveRows : List Row :=
  [sampleRow "A" "X" "3" "1", sampleRow "A" "X" "1" "1", sampleRow "A" "X" "5" "1",
   sampleRow "A" "X" "2" "1", sampleRow "A" "X" "4" "1"]

/-- Five sample rows of one species, one of them with an infinite mass. -/
def fiveRowsInfinity : List Row :=
  [sampleRow "A" "X" "3" "1", sampleRow "A" "X" "1" "1", sampleRow "A" "X" "Infinity" "1",
   sampleRow "A" "X" "2" "1", sampleRow "A" "X" "4" "1"]

/-- Five sample rows of one species with masses at both ends of the range of
a double. -/
def fiveRowsHuge : List Row :=
  [sampleRow "A" "X" "1e308" "1", sampleRow "A" "X" "-1e308" "1",
   sampleRow "A" "X" "1e308" "1", sampleRow "A" "X" "-1e308" "1",
   sampleRow "A" "X" "1e308" "1"]

/-- Three sample rows in two groups, `B` first. -/
def threeRows : List Row :=
  [sampleRow "B" "X" "2" "3", sampleRow "A" "X" "1" "5", sampleRow "B" "Y" "1" "1"]

/-- A sample dataset of two rows with an index column, a name column and a
column whose name is a numeral. -/
def sampleTable : List Row :=
  [[("#", "1"), ("Name", "2"), ("mass", "3"), ("2", "4"), ("species", "A")],
   [("#", "2"), ("Name", "B"), ("mass", "4"), ("2", "5"), ("species", "5")]]

/-! ## JavaScript numbers -/

theorem overflowLimit_pos : 0 < overflowLimit := by
  unfold overflowLimit
  have h : (2 : ℚ) ^ 970 < 2 ^ 1024 := pow_lt_pow_right₀ (by norm_num) (by norm_num)
  linarith

theorem ofRat_of_lt (r : ℚ) (h1 : -overflowLimit < r) (h2 : r < overflowLimit) :
    JNum.ofRat r = JNum.fin r := by
  unfold JNum.ofRat
  rw [if_neg (not_le.2 h2), if_neg (not_le.2 h1)]

theorem isFinite_ofRat (r : ℚ) (h : (JNum.ofRat r).isFinite = true) :
    -overflowLimit < r ∧ r < overflowLimit := by
  unfold JNum.ofRat at h
  by_cases h1 : overflowLimit ≤ r
  · simp [h1, JNum.isFinite] at h
  · by_cases h2 : r ≤ -overflowLimit
    · simp [h1, h2, JNum.isFinite] at h
    · exact ⟨not_le.1 h2, not_le.1 h1⟩

theorem le_fin_fin (a b : ℚ) : JNum.le (JNum.fin a) (JNum.fin b) = decide (a ≤ b) := rfl

theorem lt_fin_fin (a b : ℚ) : JNum.lt (JNum.fin a) (JNum.fin b) = decide (a < b) := rfl

theorem jle_self_of_not_nan (a : JNum) (h : a.isNaN = false) : JNum.le a a = true := by
  cases a <;> simp_all [JNum.le, JNum.isNaN]

theorem jle_of_not_jlt (a b : JNum) (ha : a.isNaN = false) (hb : b.isNaN = false)
    (h : JNum.lt b a = false) : JNum.le a b = true := by
  cases a <;> cases b <;> simp_all [JNum.le, JNum.lt, JNum.isNaN]

theorem jle_of_jlt (a b : JNum) (h : JNum.lt a b = true) : JNum.le a b = true := by
  cases a <;> cases b <;> simp_all [JNum.le, JNum.lt]
  exact h.le

theorem jle_trans (a b c : JNum) (h1 : JNum.le a b = true) (h2 : JNum.le b c = true) :
    JNum.le a c = true := by
  cases a <;> cases b <;> cases c <;> simp_all [JNum.le]
  exact le_trans h1 h2

theorem arith_in_range (v0 v1 f : ℚ) (h01 : v0 ≤ v1) (h0 : -overflowLimit < v0)
    (h1 : v1 < overflowLimit) (hd : v1 - v0 < overflowLimit) (hf0 : 0 ≤ f) (hf1 : f ≤ 1) :
    JNum.add (JNum.fin v0) (JNum.mul (JNum.sub (JNum.fin v1) (JNum.fin v0)) (JNum.fin f)) =
      JNum.fin (v0 + f * (v1 - v0)) := by
  have hT := overflowLimit_pos
  have hsub : JNum.sub (JNum.fin v1) (JNum.fin v0) = JNum.fin (v1 - v0) := by
    show JNum.ofRat (v1 + -v0) = _
    rw [ofRat_of_lt _ (by linarith) (by linarith)]
    congr 1
    ring
  have hprod0 : 0 ≤ (v1 - v0) * f := mul_nonneg (by linarith) hf0
  have hprod1 : (v1 - v0) * f ≤ v1 - v0 := by nlinarith
  have hmul : JNum.mul (JNum.fin (v1 - v0)) (JNum.fin f) = JNum.fin ((v1 - v0) * f) := by
    show JNum.ofRat ((v1 - v0) * f) = _
    rw [ofRat_of_lt _ (by linarith) (by linarith)]
  rw [hsub, hmul]
  show JNum.ofRat (v0 + (v1 - v0) * f) = _
  rw [ofRat_of_lt _ (by linarith) (by linarith)]
  congr 1
  ring

/-! ## loadDataset -/

theorem loadDatasetUrl_template_of_ne (d : String) (h1 : d ≠ "penguins_cleaned")
    (h2 : d ≠ "pokemon") : loadDatasetUrl d = testDataPath d := by
  simp [loadDatasetUrl, testDataPath, h1, h2]

/-- C8 (as stated, refuted): there are no three distinct identifiers whose path
is fixed rather than the templated test-data path; only two are recognized. -/
theorem loadDatasetUrl_no_three_recognized :
    ¬ ∃ a b c : String, a ≠ b ∧ a ≠ c ∧ b ≠ c ∧
      loadDatasetUrl a ≠ testDataPath a ∧ loadDatasetUrl b ≠ testDataPath b ∧
      loadDatasetUrl c ≠ testDataPath c := by
  have key : ∀ d : String, loadDatasetUrl d ≠ testDataPath d →
      d = "penguins_cleaned" ∨ d = "pokemon" := by
    intro d hd
    by_contra hne
    push_neg at hne
    exact hd (loadDatasetUrl_template_of_ne d hne.1 hne.2)
  rintro ⟨a, b, c, hab, hac, hbc, ha, hb, hc⟩
  rcases key a ha with ha | ha <;> rcases key b hb with hb | hb <;>
    rcases key c hc with hc | hc <;> simp_all

/-- C8 (amended): two identifiers, `penguins_cleaned` and `pokemon`, map to a fixed
path each; every other identifier `d` maps to `/testing/data/<d>.csv`. -/
theorem loadDatasetUrl_two_recognized :
    loadDatasetUrl "penguins_cleaned" = "penguins_cleaned.csv" ∧
    loadDatasetUrl "pokemon" = "pokemon.csv" ∧
    ∀ d : String, d ≠ "penguins_cleaned" → d ≠ "pokemon" →
      loadDatasetUrl d = "/testing/data/" ++ d ++ ".csv" := by
  refine ⟨by simp [loadDatasetUrl], by simp [loadDatasetUrl], ?_⟩
  intro d h1 h2
  simp [loadDatasetUrl, h1, h2]

/-- The amended C8 statement at the identifier `Test1`. -/
theorem loadDatasetUrl_two_recognized_witness :
    "Test1" ≠ "penguins_cleaned" ∧ "Test1" ≠ "pokemon" ∧
    loadDatasetUrl "Test1" = "/testing/data/" ++ "Test1" ++ ".csv" :=
  ⟨by decide, by decide, loadDatasetUrl_two_recognized.2.2 "Test1" (by decide) (by decide)⟩

/-! ## populateDropdowns -/

theorem mem_objectKeys (d : Row) (col : String) :
    col ∈ objectKeys d ↔ ∃ v, (col, v) ∈ d := by
  have hnames : col ∈ d.map Prod.fst ↔ ∃ v, (col, v) ∈ d := by
    constructor
    · intro h
      obtain ⟨p, hp, e⟩ := List.mem_map.1 h
      exact ⟨p.2, by rw [← e]; exact hp⟩
    · rintro ⟨v, hv⟩
      exact List.mem_map.2 ⟨(col, v), hv, rfl⟩
  unfold objectKeys
  rw [List.mem_append, (List.perm_insertionSort _ _).mem_iff, List.mem_filter, List.mem_filter,
    ← and_or_left, hnames]
  constructor
  · exact fun h => h.1
  · intro h
    refine ⟨h, ?_⟩
    cases arrayIndex col <;> simp

theorem mem_quantitativeAttributes (num : Key → JNum) (columns : List String)
    (data : List Row) (col : String) :
    col ∈ quantitativeAttributes num columns data ↔
      col ∈ columns ∧ (∀ d ∈ data, (num (getAttr d col)).isNaN = false) ∧
        col ≠ "#" ∧ col ≠ "Name" := by
  simp [quantitativeAttributes, List.mem_filter, and_assoc]

theorem mem_categoricalAttributes (num : Key → JNum) (columns : List String)
    (data : List Row) (col : String) :
    col ∈ categoricalAttributes num columns data ↔
      col ∈ columns ∧ col ∉ quantitativeAttributes num columns data := by
  simp [categoricalAttributes, List.mem_filter]

/-- C5: for a non-empty dataset `populateDropdowns` succeeds, fills the three
quantitative dropdowns with one list and the colour dropdown with the other;
a name is in the quantitative list exactly when it is a column of the first
row, every row's cell for it passes the test `!isNaN(+v)`, and it is neither
`#` nor `Name`; a name is in the categorical list exactly when it is a column
of the first row and not quantitative; so every column of the dataset is in
exactly one of the two lists. -/
theorem populateDropdowns_classifies (num : Key → JNum) (data : List Row)
    (h : data ≠ []) :
    ∃ (d0 : Row) (opts : DropdownOptions),
      data.head? = some d0 ∧ populateDropdowns num data = some opts ∧
      opts.yAttribute = opts.xAttribute ∧ opts.boxplotAttribute = opts.xAttribute ∧
      (∀ col, col ∈ opts.xAttribute ↔
        (∃ v, (col, v) ∈ d0) ∧ (∀ d ∈ data, (num (getAttr d col)).isNaN = false) ∧
          col ≠ "#" ∧ col ≠ "Name") ∧
      (∀ col, col ∈ opts.colorAttribute ↔
        (∃ v, (col, v) ∈ d0) ∧ ¬ ((∀ d ∈ data, (num (getAttr d col)).isNaN = false) ∧
          col ≠ "#" ∧ col ≠ "Name")) ∧
      ∀ col v, (col, v) ∈ d0 →
        (col ∈ opts.xAttribute ∧ col ∉ opts.colorAttribute) ∨
          (col ∉ opts.xAttribute ∧ col ∈ opts.colorAttribute) := by
  cases data with
  | nil => exact absurd rfl h
  | cons d0 rest =>
    have hx : ∀ col, col ∈ quantitativeAttributes num (objectKeys d0) (d0 :: rest) ↔
        (∃ v, (col, v) ∈ d0) ∧
          (∀ d ∈ d0 :: rest, (num (getAttr d col)).isNaN = false) ∧
            col ≠ "#" ∧ col ≠ "Name" := by
      intro col
      rw [mem_quantitativeAttributes, mem_objectKeys]
    have hc : ∀ col, col ∈ categoricalAttributes num (objectKeys d0) (d0 :: rest) ↔
        (∃ v, (col, v) ∈ d0) ∧
          ¬ ((∀ d ∈ d0 :: rest, (num (getAttr d col)).isNaN = false) ∧
            col ≠ "#" ∧ col ≠ "Name") := by
      intro col
      rw [mem_categoricalAttributes, hx, mem_objectKeys]
      constructor
      · rintro ⟨h1, h2⟩
        exact ⟨h1, fun h3 => h2 ⟨h1, h3⟩⟩
      · rintro ⟨h1, h2⟩
        exact ⟨h1, fun h3 => h2 h3.2⟩
    refine ⟨d0, _, rfl, rfl, rfl, rfl, hx, hc, ?_⟩
    intro col v hv
    show (col ∈ quantitativeAttributes num (objectKeys d0) (d0 :: rest) ∧
        col ∉ categoricalAttributes num (objectKeys d0) (d0 :: rest)) ∨
      (col ∉ quantitativeAttributes num (objectKeys d0) (d0 :: rest) ∧
        col ∈ categoricalAttributes num (objectKeys d0) (d0 :: rest))
    by_cases hq : col ∈ quantitativeAttributes num (objectKeys d0) (d0 :: rest)
    · left
      exact ⟨hq, fun hcat => ((hc col).1 hcat).2 ((hx col).1 hq).2⟩
    · right
      exact ⟨hq, (hc col).2 ⟨⟨v, hv⟩, fun h3 => hq ((hx col).2 ⟨⟨v, hv⟩, h3⟩)⟩⟩


/-! ## Lasso handlers -/

theorem allFrom_of_forall {R : Point → Prop} :
    ∀ (pts : List Point) (j : ℕ), (∀ pt ∈ pts, R pt) → AllFrom (fun _ pt => R pt) j pts
  | [], _, _ => trivial
  | pt :: rest, j, h =>
    ⟨h pt (List.mem_cons_self _ _),
      allFrom_of_forall rest (j + 1) (fun q hq => h q (List.mem_cons_of_mem _ hq))⟩

theorem forall_of_allFrom {R : Point → Prop} :
    ∀ (pts : List Point) (j : ℕ), AllFrom (fun _ pt => R pt) j pts → ∀ pt ∈ pts, R pt
  | [], _, _ => fun _ hpt => absurd hpt (List.not_mem_nil _)
  | pt :: rest, j, h => by
    intro q hq
    rcases List.mem_cons.1 hq with rfl | hq
    · exact h.1
    · exact forall_of_allFrom rest (j + 1) h.2 q hq

theorem allFrom_classedWhere {R Q : ℕ → Point → Prop} (keep : ℕ → Bool) (name : String)
    (value : Bool)
    (hstep : ∀ j pt, R j pt → Q j (if keep j then pt.classed name value else pt)) :
    ∀ (pts : List Point) (j : ℕ), AllFrom R j pts →
      AllFrom Q j (classedWhere keep name value j pts)
  | [], _, _ => trivial
  | pt :: rest, j, h =>
    ⟨hstep j pt h.1, allFrom_classedWhere keep name value hstep rest (j + 1) h.2⟩

theorem onLassoStart_marks (page : Page) :
    ∀ pt ∈ (onLassoStart page).points, pt.selected = false ∧ pt.not_selected = true := by
  have h0 : AllFrom (fun _ _ => True) 0 page.points :=
    allFrom_of_forall (R := fun _ => True) page.points 0 (fun _ _ => trivial)
  have h1 := allFrom_classedWhere (Q := fun _ pt => pt.not_selected = true)
    (fun _ => true) "not_selected" true
    (by intro j pt _; simp [Point.classed]) page.points 0 h0
  have h2 := allFrom_classedWhere
    (Q := fun _ pt => pt.selected = false ∧ pt.not_selected = true)
    (fun _ => true) "selected" false
    (by intro j pt h; simpa [Point.classed] using h) _ 0 h1
  exact forall_of_allFrom _ 0 h2

theorem onClick_marks (num : Key → JNum) (page : Page) :
    ∀ pt ∈ (onClick num page).points, pt.selected = false ∧ pt.not_selected = false := by
  have h0 : AllFrom (fun _ _ => True) 0 page.points :=
    allFrom_of_forall (R := fun _ => True) page.points 0 (fun _ _ => trivial)
  have h1 := allFrom_classedWhere (Q := fun _ pt => pt.not_selected = false)
    (fun _ => true) "not_selected" false
    (by intro j pt _; simp [Point.classed]) page.points 0 h0
  have h2 := allFrom_classedWhere
    (Q := fun _ pt => pt.selected = false ∧ pt.not_selected = false)
    (fun _ => true) "selected" false
    (by intro j pt h; simpa [Point.classed] using h) _ 0 h1
  have h3 := forall_of_allFrom _ 0 h2
  simpa [onClick, drawBoxPlot] using h3

theorem onLassoDraw_marks (possible : ℕ → Bool) (page : Page) :
    ∀ pt ∈ (onLassoDraw possible page).points, pt.selected = !pt.not_selected := by
  have h0 : AllFrom (fun _ _ => True) 0 page.points :=
    allFrom_of_forall (R := fun _ => True) page.points 0 (fun _ _ => trivial)
  have h1 := allFrom_classedWhere
    (Q := fun j pt => possible j = true → pt.not_selected = false)
    possible "not_selected" false
    (by intro j pt _ hp; simp [hp, Point.classed]) page.points 0 h0
  have h2 := allFrom_classedWhere
    (Q := fun j pt => possible j = true → (pt.selected = true ∧ pt.not_selected = false))
    possible "selected" true
    (by intro j pt h hp; simpa [hp, Point.classed] using h hp) _ 0 h1
  have h3 := allFrom_classedWhere
    (Q := fun j pt => (possible j = true → (pt.selected = true ∧ pt.not_selected = false)) ∧
      (possible j = false → pt.not_selected = true))
    (fun j => !possible j) "not_selected" true
    (by
      intro j pt h
      cases hp : possible j <;> simp [hp, Point.classed] at h ⊢
      exact h) _ 0 h2
  have h4 := allFrom_classedWhere
    (Q := fun _ pt => pt.selected = !pt.not_selected)
    (fun j => !possible j) "selected" false
    (by
      intro j pt h
      cases hp : possible j <;> simp [hp, Point.classed] at h ⊢
      · simp [h]
      · simp [h]) _ 0 h3
  exact forall_of_allFrom _ 0 h4

theorem onLassoEnd_points (num : Key → JNum) (selected : ℕ → Bool) (page : Page) :
    (onLassoEnd num selected page).points = page.points := by
  unfold onLassoEnd
  simp only []
  split <;> simp [drawBoxPlot, updateSelectionCount]
  split <;> rfl

/-- The state of the marks the events maintain: none after a background click,
exactly one otherwise. -/
theorem step_marks (num : Key → JNum) (page : Page) (e : Event) (c : Bool)
    (he : e.isGesture = true)
    (h : ∀ pt ∈ page.points,
      if c = true then pt.selected = false ∧ pt.not_selected = false
      else pt.selected = !pt.not_selected) :
    ∀ pt ∈ (step num page e).points,
      if clearedAfter c [e] = true then pt.selected = false ∧ pt.not_selected = false
      else pt.selected = !pt.not_selected := by
  cases e with
  | lassoStart =>
    intro pt hpt
    have := onLassoStart_marks page pt hpt
    simp [clearedAfter, this]
  | lassoDraw possible =>
    intro pt hpt
    have := onLassoDraw_marks possible page pt hpt
    simp [clearedAfter, this]
  | lassoEnd selected =>
    intro pt hpt
    have hp : pt ∈ page.points := by
      have := onLassoEnd_points num selected page
      simp only [step] at hpt
      rwa [this] at hpt
    simpa [clearedAfter] using h pt hp
  | click =>
    intro pt hpt
    have := onClick_marks num page pt hpt
    simp [clearedAfter, this]
  | changeX v => simp [Event.isGesture] at he
  | changeY v => simp [Event.isGesture] at he
  | changeColor v => simp [Event.isGesture] at he
  | changeBoxplot v => simp [Event.isGesture] at he

theorem run_marks (num : Key → JNum) (events : List Event) :
    ∀ (page : Page) (c : Bool), (∀ e ∈ events, e.isGesture = true) →
    (∀ pt ∈ page.points,
      if c = true then pt.selected = false ∧ pt.not_selected = false
      else pt.selected = !pt.not_selected) →
    ∀ pt ∈ (run num page events).points,
      if clearedAfter c events = true then pt.selected = false ∧ pt.not_selected = false
      else pt.selected = !pt.not_selected := by
  induction events with
  | nil => intro page c _ h; simpa [run, clearedAfter] using h
  | cons e rest ih =>
    intro page c hg h
    have h1 := step_marks num page e c (hg e (List.mem_cons_self _ _)) h
    have h2 := ih (step num page e) (clearedAfter c [e])
      (fun e2 he2 => hg e2 (List.mem_cons_of_mem _ he2)) h1
    simpa [run, clearedAfter] using h2

/-- C6 (as stated, refuted): after a lasso start, its end and a background click
on the sample page, a circle carries neither mark. -/
theorem click_unsets_both_marks :
    ∃ pt ∈ (run sampleNum samplePage
        [Event.lassoStart, Event.lassoEnd (fun _ => false), Event.click]).points,
      pt.selected = false ∧ pt.not_selected = false := by
  have hne : (run sampleNum samplePage
      [Event.lassoStart, Event.lassoEnd (fun _ => false), Event.click]).points ≠ [] := by
    simp [run, step, onClick, onLassoStart, onLassoEnd, drawBoxPlot, samplePage,
      drawScatterPlot, scatterPoints, classedWhere, dataWhere, sampleRow]
  obtain ⟨pt, hpt⟩ := List.exists_mem_of_ne_nil _ hne
  exact ⟨pt, hpt, onClick_marks sampleNum _ pt hpt⟩

/-- C6 (amended): in every state reached by lasso start, draw, end and background
click events after a lasso start, no circle carries both marks; every circle
carries exactly one mark unless the latest of the start, draw and click events
was a background click, in which case every circle carries neither. -/
theorem marks_after_lasso_start (num : Key → JNum) (page : Page) (events : List Event)
    (hg : ∀ e ∈ events, e.isGesture = true) :
    ∀ pt ∈ (run num page (Event.lassoStart :: events)).points,
      ¬ (pt.selected = true ∧ pt.not_selected = true) ∧
      (if clearedAfter false events = true
        then pt.selected = false ∧ pt.not_selected = false
        else (pt.selected = true ∧ pt.not_selected = false) ∨
          (pt.selected = false ∧ pt.not_selected = true)) := by
  intro pt hpt
  have h0 : ∀ q ∈ (step num page Event.lassoStart).points,
      if false = true then q.selected = false ∧ q.not_selected = false
      else q.selected = !q.not_selected := by
    intro q hq
    have := onLassoStart_marks page q hq
    simp [this]
  have h := run_marks num events (step num page Event.lassoStart) false hg h0 pt
    (by simpa [run] using hpt)
  cases hc : clearedAfter false events <;> simp [hc] at h ⊢
  · cases hs : pt.not_selected <;> simp [hs] at h ⊢ <;> exact h
  · simp [h]

/-- The amended C6 statement on the sample page, for a draw and a click, at a
circle of the page. -/
theorem marks_after_lasso_start_witness :
    (∀ e ∈ [Event.lassoDraw (fun j => decide (j = 0)), Event.click], e.isGesture = true) ∧
    ∃ pt, pt ∈ (run sampleNum samplePage
        (Event.lassoStart :: [Event.lassoDraw (fun j => decide (j = 0)), Event.click])).points ∧
      ¬ (pt.selected = true ∧ pt.not_selected = true) ∧
      (if clearedAfter false [Event.lassoDraw (fun j => decide (j = 0)), Event.click] = true
        then pt.selected = false ∧ pt.not_selected = false
        else (pt.selected = true ∧ pt.not_selected = false) ∨
          (pt.selected = false ∧ pt.not_selected = true)) := by
  have hg : ∀ e ∈ [Event.lassoDraw (fun j => decide (j = 0)), Event.click],
      e.isGesture = true := by
    intro e he
    simp at he
    rcases he with rfl | rfl <;> rfl
  have hne : (run sampleNum samplePage
      (Event.lassoStart :: [Event.lassoDraw (fun j => decide (j = 0)), Event.click])).points ≠
        [] := by
    simp [run, step, onClick, onLassoStart, onLassoDraw, drawBoxPlot, samplePage,
      drawScatterPlot, scatterPoints, classedWhere, sampleRow]
  obtain ⟨pt, hpt⟩ := List.exists_mem_of_ne_nil _ hne
  exact ⟨hg, pt, hpt, marks_after_lasso_start sampleNum samplePage
    [Event.lassoDraw (fun j => decide (j = 0)), Event.click] hg pt hpt⟩

/-! ## Lasso end and the dropdown handlers -/

theorem drawBoxPlot_nil (num : Key → JNum) (page : Page) :
    drawBoxPlot num [] page = { page with boxPlot := none } := by
  simp [drawBoxPlot]

theorem dataWhere_eq (keep : ℕ → Bool) (points : List Point) :
    ∀ j : ℕ, dataWhere keep j points =
      ((points.enumFrom j).filter (fun jp => keep jp.1)).map (fun jp => jp.2.datum) := by
  induction points with
  | nil => intro j; rfl
  | cons pt rest ih =>
    intro j
    simp only [dataWhere, List.enumFrom_cons]
    by_cases h : keep j = true
    · simp [h, ih (j + 1), List.filter_cons]
    · simp [h, ih (j + 1), List.filter_cons]

/-- C7: at the end of a lasso gesture the selected rows are the rows bound to the
circles the lasso flags as selected, in circle order, and the boxplot
container holds what `drawBoxPlot` draws for them: the SVG built from them when
there is at least one, nothing when there is none; and `drawBoxPlot` on the
empty selection leaves no SVG whatever the container held. -/
theorem lassoEnd_redraws_boxplot (num : Key → JNum) (selected : ℕ → Bool) (page : Page) :
    dataWhere selected 0 page.points =
        ((page.points.enum.filter (fun jp => selected jp.1)).map (fun jp => jp.2.datum)) ∧
    (onLassoEnd num selected page).boxPlot =
        (drawBoxPlot num
          ((page.points.enum.filter (fun jp => selected jp.1)).map (fun jp => jp.2.datum))
          page).boxPlot ∧
    (onLassoEnd num selected page).boxPlot =
        (if ((page.points.enum.filter (fun jp => selected jp.1)).map
            (fun jp => jp.2.datum)).length = 0 then none
         else some (boxPlotSvg num page.boxplotAttribute page.colorAttribute
            ((page.points.enum.filter (fun jp => selected jp.1)).map
              (fun jp => jp.2.datum))).2) ∧
    (drawBoxPlot num [] page).boxPlot = none := by
  have hd : dataWhere selected 0 page.points =
      ((page.points.enum.filter (fun jp => selected jp.1)).map (fun jp => jp.2.datum)) :=
    dataWhere_eq selected page.points 0
  rw [← hd]
  refine ⟨rfl, ?_, ?_, by simp [drawBoxPlot]⟩
  · unfold onLassoEnd
    simp only []
    by_cases h : (dataWhere selected 0 page.points).length > 0
    · simp [h, updateSelectionCount]
    · have h0 : dataWhere selected 0 page.points = [] := by
        apply List.eq_nil_of_length_eq_zero; omega
      simp [h0]
  · unfold onLassoEnd
    simp only []
    by_cases h : (dataWhere selected 0 page.points).length > 0
    · have h1 : (dataWhere selected 0 page.points).length ≠ 0 := by omega
      simp [h, h1, updateSelectionCount, drawBoxPlot]
    · have h0 : dataWhere selected 0 page.points = [] := by
        apply List.eq_nil_of_length_eq_zero; omega
      simp [h0, drawBoxPlot]

/-- The C7 statement on the sample page when the lasso flags the second circle:
the selected rows are the row of `B`, and the boxplot container holds the axis
and one circle for that row. -/
theorem lassoEnd_redraws_boxplot_witness :
    ((samplePage.points.enum.filter (fun jp => decide (jp.1 = 1))).map
        (fun jp => jp.2.datum)) = [sampleRow "B" "X" "2" "3"] ∧
    (onLassoEnd sampleNum (fun j => decide (j = 1)) samplePage).boxPlot =
      some [Node.axisLeft 50
          { domain0 := JNum.fin 2, domain1 := JNum.fin 2, range0 := 350, range1 := 50 },
        Node.mark (Mark.circle (JNum.fin 80) (JNum.fin 200) 4 "#1f77b4")] :=
  ⟨by decide!,
    (lassoEnd_redraws_boxplot sampleNum (fun j => decide (j = 1)) samplePage).2.1.trans
      (by decide!)⟩

/-- C1 (as stated, refuted): on the sample page a lasso gesture commits both rows
and draws their boxplot; the change of the boxplot attribute then leaves no
boxplot, where the boxplot of the committed rows is a drawn SVG. -/
theorem changeBoxplot_loses_selection :
    dataWhere (fun _ => true) 0
        (run sampleNum samplePage [Event.lassoStart, Event.lassoDraw (fun _ => true),
          Event.lassoEnd (fun _ => true)]).points =
      [sampleRow "A" "X" "1" "5", sampleRow "B" "X" "2" "3"] ∧
    (run sampleNum samplePage [Event.lassoStart, Event.lassoDraw (fun _ => true),
        Event.lassoEnd (fun _ => true)]).boxPlot =
      some (boxPlotSvg sampleNum "mass" "species"
        [sampleRow "A" "X" "1" "5", sampleRow "B" "X" "2" "3"]).2 ∧
    (run sampleNum samplePage [Event.lassoStart, Event.lassoDraw (fun _ => true),
        Event.lassoEnd (fun _ => true), Event.changeBoxplot "len"]).boxPlot = none ∧
    (run sampleNum samplePage [Event.lassoStart, Event.lassoDraw (fun _ => true),
        Event.lassoEnd (fun _ => true), Event.changeBoxplot "len"]).boxPlot ≠
      (drawBoxPlot sampleNum [sampleRow "A" "X" "1" "5", sampleRow "B" "X" "2" "3"]
        { run sampleNum samplePage [Event.lassoStart, Event.lassoDraw (fun _ => true),
            Event.lassoEnd (fun _ => true)] with boxplotAttribute := "len" }).boxPlot := by
  refine ⟨?_, ?_, ?_, ?_⟩
  · simp [run, step, onLassoEnd, onLassoDraw, onLassoStart, drawBoxPlot, samplePage,
      drawScatterPlot, scatterPoints, classedWhere, dataWhere, Point.classed,
      updateSelectionCount]
  · simp [run, step, onLassoEnd, onLassoDraw, onLassoStart, drawBoxPlot, samplePage,
      drawScatterPlot, scatterPoints, classedWhere, dataWhere, Point.classed,
      updateSelectionCount]
  · simp [run, step, drawBoxPlot]
  · simp [run, step, drawBoxPlot]

/-- C1 (amended): a change of the boxplot-attribute dropdown calls `drawBoxPlot`
with the empty selection, so no boxplot is drawn afterwards; a change of the
colour-attribute dropdown redraws the scatterplot and leaves the boxplot
container as it was. -/
theorem dropdown_change_boxplot (num : Key → JNum) (page : Page) (value : String) :
    step num page (Event.changeBoxplot value) =
        drawBoxPlot num [] { page with boxplotAttribute := value } ∧
    (step num page (Event.changeBoxplot value)).boxPlot = none ∧
    (step num page (Event.changeColor value)).boxPlot = page.boxPlot := by
  refine ⟨rfl, by simp [step, drawBoxPlot], by simp [step, drawScatterPlot]⟩


/-! ## d3.group -/

theorem d3group_snoc (values : List Row) (keyof : Row → Key) (d : Row) :
    d3group (values ++ [d]) keyof = groupInsert (d3group values keyof) (keyof d) d := by
  simp [d3group, List.foldl_append]

theorem mapKeys_groupInsert (groups : List (Key × List Row)) (key : Key) (d : Row) :
    mapKeys (groupInsert groups key d) =
      if key ∈ mapKeys groups then mapKeys groups else mapKeys groups ++ [key] := by
  induction groups with
  | nil => simp [groupInsert, mapKeys]
  | cons g rest ih =>
    obtain ⟨k, vs⟩ := g
    by_cases hk : k = key
    · simp [groupInsert, mapKeys, hk]
    · have hk2 : ¬ key = k := fun h => hk h.symm
      simp only [mapKeys] at ih
      by_cases hm : key ∈ List.map Prod.fst rest
      · simp [groupInsert, mapKeys, hk, hk2, hm, ih]
      · simp [groupInsert, mapKeys, hk, hk2, hm, ih]

theorem mapGet_groupInsert (groups : List (Key × List Row)) (key : Key) (d : Row) (k2 : Key) :
    mapGet (groupInsert groups key d) k2 =
      if k2 = key then mapGet groups key ++ [d] else mapGet groups k2 := by
  induction groups with
  | nil =>
    by_cases h : k2 = key
    · simp [groupInsert, mapGet, h]
    · have h2 : ¬ key = k2 := fun e => h e.symm
      simp [groupInsert, mapGet, h, h2]
  | cons g rest ih =>
    obtain ⟨k, vs⟩ := g
    by_cases hk : k = key
    · subst hk
      by_cases h : k2 = k
      · simp [groupInsert, mapGet, h]
      · have h2 : ¬ k = k2 := fun e => h e.symm
        simp [groupInsert, mapGet, h, h2]
    · by_cases h : k2 = key
      · subst h
        simp [groupInsert, mapGet, hk, ih]
      · by_cases h3 : k = k2
        · simp [groupInsert, mapGet, hk, h, h3]
        · simp [groupInsert, mapGet, hk, h, h3, ih]

theorem sum_length_groupInsert (groups : List (Key × List Row)) (key : Key) (d : Row) :
    ((groupInsert groups key d).map (fun g => g.2.length)).sum =
      (groups.map (fun g => g.2.length)).sum + 1 := by
  induction groups with
  | nil => simp [groupInsert]
  | cons g rest ih =>
    obtain ⟨k, vs⟩ := g
    by_cases hk : k = key
    · simp [groupInsert, hk]; omega
    · simp [groupInsert, hk, ih]; omega

theorem mapKeys_d3group (values : List Row) (keyof : Row → Key) :
    mapKeys (d3group values keyof) = uniqueValues (values.map keyof) := by
  induction values using List.reverseRecOn with
  | nil => rfl
  | append_singleton rest d ih =>
    rw [d3group_snoc, mapKeys_groupInsert, ih]
    simp [uniqueValues, List.foldl_append]

theorem mapGet_d3group (values : List Row) (keyof : Row → Key) (k : Key) :
    mapGet (d3group values keyof) k = values.filter (fun d => keyof d = k) := by
  induction values using List.reverseRecOn with
  | nil => rfl
  | append_singleton rest d ih =>
    rw [d3group_snoc, mapGet_groupInsert, List.filter_append]
    by_cases h : k = keyof d
    · subst h
      simp [ih]
    · have h2 : ¬ keyof d = k := fun e => h e.symm
      simp [h, h2, ih]

theorem sum_length_d3group (values : List Row) (keyof : Row → Key) :
    ((d3group values keyof).map (fun g => g.2.length)).sum = values.length := by
  induction values using List.reverseRecOn with
  | nil => rfl
  | append_singleton rest d ih =>
    rw [d3group_snoc, sum_length_groupInsert, ih]
    simp

theorem uniqueValues_snoc (values : List Key) (v : Key) :
    uniqueValues (values ++ [v]) =
      if v ∈ uniqueValues values then uniqueValues values else uniqueValues values ++ [v] := by
  simp [uniqueValues, List.foldl_append]

theorem mem_uniqueValues (values : List Key) (k : Key) :
    k ∈ uniqueValues values ↔ k ∈ values := by
  induction values using List.reverseRecOn with
  | nil => simp [uniqueValues]
  | append_singleton rest v ih =>
    rw [uniqueValues_snoc]
    by_cases hv : v ∈ uniqueValues rest
    · simp only [hv, if_true, List.mem_append, List.mem_singleton, ih]
      constructor
      · exact fun h => Or.inl h
      · rintro (h | h)
        · exact h
        · subst h; exact ih.1 hv
    · simp [hv, ih]

theorem nodup_uniqueValues (values : List Key) : (uniqueValues values).Nodup := by
  induction values using List.reverseRecOn with
  | nil => simp [uniqueValues]
  | append_singleton rest v ih =>
    rw [uniqueValues_snoc]
    by_cases hv : v ∈ uniqueValues rest
    · simpa [hv] using ih
    · simp only [hv, if_false]
      rw [List.nodup_append]
      refine ⟨ih, List.nodup_singleton _, ?_⟩
      intro a ha hb
      simp at hb
      exact hv (hb ▸ ha)

theorem firstIndex_lt_of_mem (values : List Key) (k : Key) (h : k ∈ values) :
    firstIndex values k < values.length := by
  induction values with
  | nil => simp at h
  | cons v rest ih =>
    by_cases hv : v = k
    · simp [firstIndex, hv]
    · have hk : k ∈ rest := by
        rcases List.mem_cons.1 h with e | e
        · exact absurd e.symm hv
        · exact e
      simp [firstIndex, hv, ih hk]

theorem firstIndex_of_not_mem (values : List Key) (k : Key) (h : k ∉ values) :
    firstIndex values k = values.length := by
  induction values with
  | nil => rfl
  | cons v rest ih =>
    have hv : ¬ v = k := fun e => h (e ▸ List.mem_cons_self _ _)
    have hk : k ∉ rest := fun e => h (List.mem_cons_of_mem _ e)
    simp [firstIndex, hv, ih hk]

theorem firstIndex_append_of_mem (values more : List Key) (k : Key) (h : k ∈ values) :
    firstIndex (values ++ more) k = firstIndex values k := by
  induction values with
  | nil => simp at h
  | cons v rest ih =>
    by_cases hv : v = k
    · simp [firstIndex, hv]
    · have hk : k ∈ rest := by
        rcases List.mem_cons.1 h with e | e
        · exact absurd e.symm hv
        · exact e
      simp [firstIndex, hv, ih hk]

theorem firstIndex_append_of_not_mem (values more : List Key) (k : Key) (h : k ∉ values) :
    firstIndex (values ++ more) k = values.length + firstIndex more k := by
  induction values with
  | nil => simp
  | cons v rest ih =>
    have hv : ¬ v = k := fun e => h (e ▸ List.mem_cons_self _ _)
    have hk : k ∉ rest := fun e => h (List.mem_cons_of_mem _ e)
    simp [firstIndex, hv, ih hk]
    omega

theorem pairwise_uniqueValues (values : List Key) :
    List.Pairwise (fun a b => firstIndex values a < firstIndex values b)
      (uniqueValues values) := by
  induction values using List.reverseRecOn with
  | nil => simp [uniqueValues]
  | append_singleton rest v ih =>
    rw [uniqueValues_snoc]
    have ih2 : List.Pairwise
        (fun a b => firstIndex (rest ++ [v]) a < firstIndex (rest ++ [v]) b)
        (uniqueValues rest) := by
      refine List.Pairwise.imp_of_mem ?_ ih
      intro a b ha hb hab
      rw [firstIndex_append_of_mem _ _ _ ((mem_uniqueValues _ _).1 ha),
        firstIndex_append_of_mem _ _ _ ((mem_uniqueValues _ _).1 hb)]
      exact hab
    by_cases hv : v ∈ uniqueValues rest
    · simpa [hv] using ih2
    · simp only [hv, if_false]
      rw [List.pairwise_append]
      refine ⟨ih2, List.pairwise_singleton _ _, ?_⟩
      intro a ha b hb
      simp at hb
      subst hb
      have hvr : b ∉ rest := fun e => hv ((mem_uniqueValues _ _).2 e)
      rw [firstIndex_append_of_mem _ _ _ ((mem_uniqueValues _ _).1 ha),
        firstIndex_append_of_not_mem _ _ _ hvr]
      have := firstIndex_lt_of_mem _ _ ((mem_uniqueValues _ _).1 ha)
      omega

theorem mapGet_of_mem (groups : List (Key × List Row)) (hnd : (mapKeys groups).Nodup)
    (g : Key × List Row) (hg : g ∈ groups) : mapGet groups g.1 = g.2 := by
  induction groups with
  | nil => simp at hg
  | cons g0 rest ih =>
    obtain ⟨k, vs⟩ := g0
    simp only [mapKeys, List.map_cons, List.nodup_cons] at hnd
    rcases List.mem_cons.1 hg with e | e
    · subst e; simp [mapGet]
    · have hne : ¬ k = g.1 := by
        intro h
        apply hnd.1
        rw [h]
        exact List.mem_map_of_mem Prod.fst e
      simp [mapGet, hne]
      exact ih hnd.2 e

theorem mem_d3group_iff (values : List Row) (keyof : Row → Key) (g : Key × List Row) :
    g ∈ d3group values keyof ↔
      g.1 ∈ values.map keyof ∧ g.2 = values.filter (fun d => keyof d = g.1) := by
  have hnd : (mapKeys (d3group values keyof)).Nodup := by
    rw [mapKeys_d3group]; exact nodup_uniqueValues _
  constructor
  · intro hg
    refine ⟨?_, ?_⟩
    · rw [← mem_uniqueValues, ← mapKeys_d3group]
      exact List.mem_map_of_mem Prod.fst hg
    · rw [← mapGet_d3group, mapGet_of_mem _ hnd g hg]
  · rintro ⟨h1, h2⟩
    rw [← mem_uniqueValues, ← mapKeys_d3group] at h1
    obtain ⟨g2, hg2, e⟩ := List.mem_map.1 h1
    have := mapGet_of_mem _ hnd g2 hg2
    rw [mapGet_d3group, e, ← h2] at this
    have : g2 = g := Prod.ext e this.symm
    exact this ▸ hg2

/-- C4: for a non-empty selection the groups `drawBoxPlot` builds with `d3.group`
on the colour attribute partition the selection: there is at least one
group, the group values are pairwise distinct, each group is non-empty and is
exactly the selected rows (in selection order) having the group's value,
each selected row lies in exactly one group, the group sizes add up to the
size of the selection, and the groups come in the order of the first
occurrence of their value in the selection. -/
theorem drawBoxPlot_groups_partition (colorAttr : String) (selectedData : List Row)
    (h : selectedData ≠ []) :
    d3group selectedData (fun d => getAttr d colorAttr) ≠ [] ∧
    (mapKeys (d3group selectedData (fun d => getAttr d colorAttr))).Nodup ∧
    (∀ g ∈ d3group selectedData (fun d => getAttr d colorAttr),
      g.2 ≠ [] ∧ g.2 = selectedData.filter (fun d => getAttr d colorAttr = g.1)) ∧
    (∀ d ∈ selectedData,
      ∃! g, g ∈ d3group selectedData (fun d => getAttr d colorAttr) ∧ d ∈ g.2) ∧
    ((d3group selectedData (fun d => getAttr d colorAttr)).map (fun g => g.2.length)).sum =
      selectedData.length ∧
    List.Pairwise
      (fun a b =>
        firstIndex (selectedData.map (fun d => getAttr d colorAttr)) a <
          firstIndex (selectedData.map (fun d => getAttr d colorAttr)) b)
      (mapKeys (d3group selectedData (fun d => getAttr d colorAttr))) := by
  have hnd : (mapKeys (d3group selectedData (fun d => getAttr d colorAttr))).Nodup := by
    rw [mapKeys_d3group]; exact nodup_uniqueValues _
  have hmem : ∀ d ∈ selectedData, (getAttr d colorAttr,
      selectedData.filter (fun e => getAttr e colorAttr = getAttr d colorAttr)) ∈
        d3group selectedData (fun d => getAttr d colorAttr) := by
    intro d hd
    rw [mem_d3group_iff]
    exact ⟨List.mem_map_of_mem _ hd, rfl⟩
  refine ⟨?_, hnd, ?_, ?_, sum_length_d3group _ _, ?_⟩
  · obtain ⟨d, hd⟩ := List.exists_mem_of_ne_nil _ h
    exact List.ne_nil_of_mem (hmem d hd)
  · intro g hg
    have hg2 := (mem_d3group_iff _ _ g).1 hg
    refine ⟨?_, hg2.2⟩
    obtain ⟨d, hd, hk⟩ := List.mem_map.1 hg2.1
    rw [hg2.2]
    apply List.ne_nil_of_mem (a := d)
    simp [List.mem_filter, hd, hk]
  · intro d hd
    refine ⟨_, ⟨hmem d hd, by simp [List.mem_filter, hd]⟩, ?_⟩
    rintro g ⟨hg, hdg⟩
    have hg2 := (mem_d3group_iff _ _ g).1 hg
    rw [hg2.2] at hdg
    have hk : getAttr d colorAttr = g.1 := by
      simpa using (List.mem_filter.1 hdg).2
    apply Prod.ext
    · exact hk.symm
    · simp only [hg2.2, hk]
  · rw [mapKeys_d3group]
    exact pairwise_uniqueValues _


/-! ## Sorting, extrema and quantiles -/

theorem perm_sortAscending (values : List JNum) : (sortAscending values).Perm values :=
  List.perm_insertionSort _ values

theorem length_sortAscending (values : List JNum) :
    (sortAscending values).length = values.length :=
  (perm_sortAscending values).length_eq

theorem orderedInsert_map_fin (a : ℚ) (l : List ℚ) :
    List.orderedInsert (fun a b => JNum.lt b a = false) (JNum.fin a) (l.map JNum.fin) =
      (List.orderedInsert (· ≤ ·) a l).map JNum.fin := by
  induction l with
  | nil => rfl
  | cons b rest ih =>
    simp only [List.map_cons, List.orderedInsert, lt_fin_fin]
    by_cases h : a ≤ b
    · have h2 : ¬ b < a := not_lt.2 h
      simp [h, h2]
    · have h2 : b < a := not_le.1 h
      simp [h, h2, ih]

theorem sortAscending_map_fin (qs : List ℚ) :
    sortAscending (qs.map JNum.fin) = (qs.insertionSort (· ≤ ·)).map JNum.fin := by
  induction qs with
  | nil => rfl
  | cons a rest ih =>
    simp only [sortAscending, List.map_cons, List.insertionSort] at ih ⊢
    rw [ih, orderedInsert_map_fin]

theorem sorted_orderedInsert_of_not_nan (a : JNum) (ha : a.isNaN = false) (l : List JNum)
    (hl : ∀ b ∈ l, b.isNaN = false) (hs : l.Sorted (fun a b => JNum.le a b = true)) :
    (List.orderedInsert (fun a b => JNum.lt b a = false) a l).Sorted
      (fun a b => JNum.le a b = true) := by
  induction l with
  | nil => simp [List.orderedInsert]
  | cons b rest ih =>
    have hb : b.isNaN = false := hl b (List.mem_cons_self _ _)
    have hrest : ∀ c ∈ rest, c.isNaN = false := fun c hc => hl c (List.mem_cons_of_mem _ hc)
    have hs2 := List.sorted_cons.1 hs
    simp only [List.orderedInsert]
    by_cases h : JNum.lt b a = false
    · simp only [h, if_true]
      have hab : JNum.le a b = true := jle_of_not_jlt a b ha hb h
      refine List.sorted_cons.2 ⟨?_, hs⟩
      intro c hc
      rcases List.mem_cons.1 hc with rfl | hc
      · exact hab
      · exact jle_trans a b c hab (hs2.1 c hc)
    · simp only [h, if_false]
      have hba : JNum.le b a = true := jle_of_jlt b a (by simpa using h)
      refine List.sorted_cons.2 ⟨?_, ih hrest hs2.2⟩
      intro c hc
      rcases (List.mem_orderedInsert _).1 hc with rfl | hc
      · exact hba
      · exact hs2.1 c hc

theorem sorted_sortAscending_of_not_nan (values : List JNum)
    (h : ∀ v ∈ values, v.isNaN = false) :
    (sortAscending values).Sorted (fun a b => JNum.le a b = true) := by
  induction values with
  | nil => simp [sortAscending]
  | cons a rest ih =>
    have hrest : ∀ v ∈ rest, v.isNaN = false := fun v hv => h v (List.mem_cons_of_mem _ hv)
    simp only [sortAscending, List.insertionSort] at ih ⊢
    refine sorted_orderedInsert_of_not_nan a (h a (List.mem_cons_self _ _)) _ ?_ (ih hrest)
    intro b hb
    exact hrest b ((List.perm_insertionSort _ rest).mem_iff.1 hb)

theorem getD_map_fin (l : List ℚ) (i : ℕ) (hi : i < l.length) :
    (l.map JNum.fin).getD i JNum.nan = JNum.fin (l.getD i 0) := by
  rw [List.getD_eq_getElem _ _ (by simpa using hi), List.getD_eq_getElem _ _ hi]
  simp

theorem filter_numbers_map_fin (l : List ℚ) :
    (l.map JNum.fin).filter (fun value => JNum.le value value) = l.map JNum.fin := by
  apply List.filter_eq_self.2
  intro v hv
  obtain ⟨q, _, rfl⟩ := List.mem_map.1 hv
  simp [le_fin_fin]

theorem getD_le_getD_of_sorted (l : List ℚ) (h : l.Sorted (· ≤ ·)) (i j : ℕ) (hij : i ≤ j)
    (hj : j < l.length) : l.getD i 0 ≤ l.getD j 0 := by
  have hi : i < l.length := lt_of_le_of_lt hij hj
  rw [List.getD_eq_getElem l 0 hi, List.getD_eq_getElem l 0 hj]
  rcases Nat.eq_or_lt_of_le hij with e | e
  · subst e; exact le_refl _
  · exact (List.pairwise_iff_getElem.1 h) i j hi hj e

theorem getD_mem (l : List ℚ) (i : ℕ) (hi : i < l.length) : l.getD i 0 ∈ l := by
  rw [List.getD_eq_getElem l 0 hi]
  exact List.getElem_mem hi

theorem d3min_foldl_of_le (x : ℚ) (l : List ℚ) (h : ∀ v ∈ l, x ≤ v) :
    (l.map JNum.fin).foldl (fun m value =>
      match m with
      | none => if JNum.le value value then some value else none
      | some y => if JNum.lt value y then some value else some y) (some (JNum.fin x)) =
        some (JNum.fin x) := by
  induction l with
  | nil => rfl
  | cons v rest ih =>
    have hv : ¬ v < x := not_lt.2 (h v (List.mem_cons_self _ _))
    simp only [List.map_cons, List.foldl_cons, lt_fin_fin, hv, decide_False]
    exact ih (fun w hw => h w (List.mem_cons_of_mem _ hw))

theorem d3min_of_sorted (l : List ℚ) (h : l.Sorted (· ≤ ·)) (hne : l ≠ []) :
    d3min (l.map JNum.fin) = some (JNum.fin (l.getD 0 0)) := by
  cases l with
  | nil => exact absurd rfl hne
  | cons x rest =>
    simp only [d3min, List.map_cons, List.foldl_cons, List.getD_cons_zero, le_fin_fin,
      le_refl, decide_True, if_true]
    exact d3min_foldl_of_le x rest (List.rel_of_sorted_cons h)

theorem d3max_foldl_of_sorted (l : List ℚ) :
    ∀ x : ℚ, (x :: l).Sorted (· ≤ ·) →
    (l.map JNum.fin).foldl (fun m value =>
      match m with
      | none => if JNum.le value value then some value else none
      | some y => if JNum.lt y value then some value else some y) (some (JNum.fin x)) =
      some (JNum.fin ((x :: l).getD l.length 0)) := by
  induction l with
  | nil => intro x _; rfl
  | cons v rest ih =>
    intro x h
    have hxv : x ≤ v := List.rel_of_sorted_cons h v (List.mem_cons_self _ _)
    have hs : (v :: rest).Sorted (· ≤ ·) := List.Sorted.of_cons h
    have key : (if JNum.lt (JNum.fin x) (JNum.fin v) = true then some (JNum.fin v)
        else some (JNum.fin x)) = some (JNum.fin v) := by
      by_cases hlt : x < v
      · simp [lt_fin_fin, hlt]
      · have : x = v := le_antisymm hxv (not_lt.1 hlt)
        simp [this]
    simp only [List.map_cons, List.foldl_cons, key]
    rw [ih v hs]
    simp

theorem d3max_of_sorted (l : List ℚ) (h : l.Sorted (· ≤ ·)) (hne : l ≠ []) :
    d3max (l.map JNum.fin) = some (JNum.fin (l.getD (l.length - 1) 0)) := by
  cases l with
  | nil => exact absurd rfl hne
  | cons x rest =>
    simp only [d3max, List.map_cons, List.foldl_cons, le_fin_fin, le_refl, decide_True,
      if_true]
    rw [d3max_foldl_of_sorted rest x h]
    simp

/-- The interpolated value at a fractional index of an ascending list. -/
theorem interp_bounds (l : List ℚ) (h : l.Sorted (· ≤ ·)) (i : ℚ) (hi : 0 ≤ i)
    (hlt : ⌊i⌋₊ + 1 < l.length) :
    l.getD ⌊i⌋₊ 0 ≤ l.getD ⌊i⌋₊ 0 + (i - (⌊i⌋₊ : ℚ)) * (l.getD (⌊i⌋₊ + 1) 0 - l.getD ⌊i⌋₊ 0) ∧
    l.getD ⌊i⌋₊ 0 + (i - (⌊i⌋₊ : ℚ)) * (l.getD (⌊i⌋₊ + 1) 0 - l.getD ⌊i⌋₊ 0) ≤
      l.getD (⌊i⌋₊ + 1) 0 := by
  have hd : l.getD ⌊i⌋₊ 0 ≤ l.getD (⌊i⌋₊ + 1) 0 :=
    getD_le_getD_of_sorted l h _ _ (Nat.le_succ _) hlt
  have hf0 : 0 ≤ i - (⌊i⌋₊ : ℚ) := sub_nonneg.2 (Nat.floor_le hi)
  have hf1 : i - (⌊i⌋₊ : ℚ) ≤ 1 := by
    have := Nat.lt_floor_add_one i
    linarith
  constructor
  · nlinarith [mul_nonneg hf0 (sub_nonneg.2 hd)]
  · nlinarith [mul_nonneg (sub_nonneg.2 hf1) (sub_nonneg.2 hd)]

theorem interp_mono (l : List ℚ) (h : l.Sorted (· ≤ ·)) (i j : ℚ) (hi : 0 ≤ i) (hij : i ≤ j)
    (hlt : ⌊j⌋₊ + 1 < l.length) :
    l.getD ⌊i⌋₊ 0 + (i - (⌊i⌋₊ : ℚ)) * (l.getD (⌊i⌋₊ + 1) 0 - l.getD ⌊i⌋₊ 0) ≤
      l.getD ⌊j⌋₊ 0 + (j - (⌊j⌋₊ : ℚ)) * (l.getD (⌊j⌋₊ + 1) 0 - l.getD ⌊j⌋₊ 0) := by
  have hj : 0 ≤ j := le_trans hi hij
  have hfl : ⌊i⌋₊ ≤ ⌊j⌋₊ := Nat.floor_mono hij
  rcases Nat.eq_or_lt_of_le hfl with e | e
  · rw [e]
    have hd : l.getD ⌊j⌋₊ 0 ≤ l.getD (⌊j⌋₊ + 1) 0 :=
      getD_le_getD_of_sorted l h _ _ (Nat.le_succ _) hlt
    nlinarith [mul_nonneg (sub_nonneg.2 hij) (sub_nonneg.2 hd)]
  · have h1 := (interp_bounds l h i hi (by omega)).2
    have h2 : l.getD (⌊i⌋₊ + 1) 0 ≤ l.getD ⌊j⌋₊ 0 :=
      getD_le_getD_of_sorted l h _ _ e (by omega)
    have h3 := (interp_bounds l h j hj hlt).1
    linarith

theorem floor_index_lt (n : ℕ) (p : ℚ) (hp : 0 ≤ p) (hp1 : p < 1) (hn : 2 ≤ n) :
    0 ≤ ((n : ℚ) - 1) * p ∧ ⌊((n : ℚ) - 1) * p⌋₊ + 1 < n := by
  have hn1 : (0 : ℚ) < (n : ℚ) - 1 := by
    have : (2 : ℚ) ≤ (n : ℚ) := by exact_mod_cast hn
    linarith
  have hi : 0 ≤ ((n : ℚ) - 1) * p := mul_nonneg hn1.le hp
  have hjlt : ((n : ℚ) - 1) * p < ((n - 1 : ℕ) : ℚ) := by
    have : ((n - 1 : ℕ) : ℚ) = (n : ℚ) - 1 := by
      rw [Nat.cast_sub (by omega)]; simp
    rw [this]
    nlinarith
  have hfl : ⌊((n : ℚ) - 1) * p⌋₊ < n - 1 := (Nat.floor_lt hi).2 hjlt
  exact ⟨hi, by omega⟩

theorem quantileR7_mono (l : List ℚ) (h : l.Sorted (· ≤ ·)) (p q : ℚ) (hp : 0 ≤ p)
    (hpq : p ≤ q) (hq : q < 1) (hn : 2 ≤ l.length) : quantileR7 l p ≤ quantileR7 l q := by
  have hn1 : (0 : ℚ) < (l.length : ℚ) - 1 := by
    have : (2 : ℚ) ≤ (l.length : ℚ) := by exact_mod_cast hn
    linarith
  have hi := (floor_index_lt l.length p hp (lt_of_le_of_lt hpq hq) hn).1
  have hij : ((l.length : ℚ) - 1) * p ≤ ((l.length : ℚ) - 1) * q :=
    mul_le_mul_of_nonneg_left hpq hn1.le
  exact interp_mono l h _ _ hi hij (floor_index_lt l.length q (le_trans hp hpq) hq hn).2

theorem quantileR7_bounds (l : List ℚ) (h : l.Sorted (· ≤ ·)) (p : ℚ) (hp : 0 ≤ p)
    (hp1 : p < 1) (hn : 2 ≤ l.length) :
    l.getD 0 0 ≤ quantileR7 l p ∧ quantileR7 l p ≤ l.getD (l.length - 1) 0 := by
  obtain ⟨hi, hfl⟩ := floor_index_lt l.length p hp hp1 hn
  have hb := interp_bounds l h _ hi hfl
  constructor
  · exact le_trans (getD_le_getD_of_sorted l h 0 _ (Nat.zero_le _) (by omega)) hb.1
  · exact le_trans hb.2 (getD_le_getD_of_sorted l h _ _ (by omega) (by omega))

/-- On finite values in ascending order whose differences do not overflow,
`d3.quantile` returns the R-7 quantile. -/
theorem d3quantile_of_sorted (l : List ℚ) (h : l.Sorted (· ≤ ·)) (p : ℚ) (hp0 : 0 < p)
    (hp1 : p < 1) (hn : 2 ≤ l.length)
    (hr : ∀ v ∈ l, -overflowLimit < v ∧ v < overflowLimit)
    (hd : ∀ u ∈ l, ∀ v ∈ l, u - v < overflowLimit) :
    d3quantile (l.map JNum.fin) p = some (JNum.fin (quantileR7 l p)) := by
  have h1 : ¬ l.length = 0 := by omega
  have h2 : ¬ (p ≤ 0 ∨ l.length < 2) := by
    push_neg
    exact ⟨hp0, hn⟩
  have h3 : ¬ p ≥ 1 := not_le.2 hp1
  obtain ⟨hi, hfl⟩ := floor_index_lt l.length p hp0.le hp1 hn
  have hsort : sortAscending (l.map JNum.fin) = l.map JNum.fin := by
    rw [sortAscending_map_fin, List.Sorted.insertionSort_eq h]
  have hm0 := getD_mem l ⌊((l.length : ℚ) - 1) * p⌋₊ (by omega)
  have hm1 := getD_mem l (⌊((l.length : ℚ) - 1) * p⌋₊ + 1) hfl
  have hf0 : 0 ≤ ((l.length : ℚ) - 1) * p - (⌊((l.length : ℚ) - 1) * p⌋₊ : ℚ) :=
    sub_nonneg.2 (Nat.floor_le hi)
  have hf1 : ((l.length : ℚ) - 1) * p - (⌊((l.length : ℚ) - 1) * p⌋₊ : ℚ) ≤ 1 := by
    have := Nat.lt_floor_add_one (((l.length : ℚ) - 1) * p)
    linarith
  simp only [d3quantile, filter_numbers_map_fin, List.length_map, h1, h2, h3, if_false, hsort,
    getD_map_fin l _ (by omega : ⌊((l.length : ℚ) - 1) * p⌋₊ < l.length),
    getD_map_fin l _ hfl, quantileR7]
  rw [arith_in_range _ _ _
    (getD_le_getD_of_sorted l h _ _ (Nat.le_succ _) hfl) (hr _ hm0).1 (hr _ hm1).2
    (hd _ hm1 _ hm0) hf0 hf1]

/-- The five statistics of at least two finite values whose differences do not
overflow. -/
theorem boxPlotStatistics_of_sorted (l : List ℚ) (h : l.Sorted (· ≤ ·)) (hn : 2 ≤ l.length)
    (hr : ∀ v ∈ l, -overflowLimit < v ∧ v < overflowLimit)
    (hd : ∀ u ∈ l, ∀ v ∈ l, u - v < overflowLimit) :
    boxPlotStatistics (l.map JNum.fin) =
      (some (JNum.fin (l.getD 0 0)),
       some (JNum.fin (quantileR7 l (1 / 4))),
       some (JNum.fin (quantileR7 l (1 / 2))),
       some (JNum.fin (quantileR7 l (3 / 4))),
       some (JNum.fin (l.getD (l.length - 1) 0))) := by
  have hne : l ≠ [] := by
    intro e; rw [e] at hn; simp at hn
  simp only [boxPlotStatistics, d3median, d3min_of_sorted _ h hne, d3max_of_sorted _ h hne,
    d3quantile_of_sorted _ h (1 / 4) (by norm_num) (by norm_num) hn hr hd,
    d3quantile_of_sorted _ h (1 / 2) (by norm_num) (by norm_num) hn hr hd,
    d3quantile_of_sorted _ h (3 / 4) (by norm_num) (by norm_num) hn hr hd]


/-- C2 (as stated, refuted): a group of five rows whose masses are 3, 1, Infinity,
2, 4 passes the numeric test of `populateDropdowns`, and its statistics are
min 1, q1 2, median 3, q3 `NaN`, max Infinity, so neither `median <= q3` nor
`q3 <= max` holds; for masses of 1e308 and -1e308 the difference overflows and
q1 is `NaN`, so neither `min <= q1` nor `q1 <= median` holds. -/
theorem infinite_value_breaks_quartile_order :
    d3group fiveRowsInfinity (fun d => getAttr d "species") = [(some "A", fiveRowsInfinity)] ∧
    (populateDropdowns sampleNum fiveRowsInfinity).map (fun o => o.boxplotAttribute) =
      some ["mass", "len"] ∧
    boxPlotStatistics (groupValues sampleNum "mass" fiveRowsInfinity) =
      (some (JNum.fin 1), some (JNum.fin 2), some (JNum.fin 3), some JNum.nan,
        some JNum.posInf) ∧
    JNum.le (JNum.fin 3) JNum.nan = false ∧
    JNum.le JNum.nan JNum.posInf = false ∧
    d3group fiveRowsHuge (fun d => getAttr d "species") = [(some "A", fiveRowsHuge)] ∧
    (populateDropdowns sampleNum fiveRowsHuge).map (fun o => o.boxplotAttribute) =
      some ["mass", "len"] ∧
    boxPlotStatistics (groupValues sampleNum "mass" fiveRowsHuge) =
      (some (JNum.fin (-10 ^ 308)), some JNum.nan, some (JNum.fin (10 ^ 308)),
        some (JNum.fin (10 ^ 308)), some (JNum.fin (10 ^ 308))) ∧
    JNum.le (JNum.fin (-10 ^ 308)) JNum.nan = false ∧
    JNum.le JNum.nan (JNum.fin (10 ^ 308)) = false := by
  refine ⟨by decide!, by decide!, by decide!, by decide!, by decide!, by decide!, by decide!,
    by decide!, by decide!, by decide!⟩

/-- C2 (amended): for every selection and every group of it with at least five
rows whose boxplot-attribute values are all finite doubles no two of which
differ by an overflowing amount, the five statistics `drawBoxPlot` computes on
the group's ascending values are finite, `min` is the first (smallest) and
`max` the last (largest) value, `q1`, `median`, `q3` are the R-7 quantiles at
0.25, 0.5 and 0.75, and `min ≤ q1 ≤ median ≤ q3 ≤ max`. -/
theorem boxPlotStatistics_ordered_of_finite (num : Key → JNum) (boxAttr colorAttr : String)
    (selectedData : List Row) (g : Key × List Row)
    (hg : g ∈ d3group selectedData (fun d => getAttr d colorAttr)) (h5 : 5 ≤ g.2.length)
    (hfin : ∀ d ∈ g.2, ∃ q : ℚ, num (getAttr d boxAttr) = JNum.fin q ∧
      -overflowLimit < q ∧ q < overflowLimit)
    (hspan : ∀ d ∈ g.2, ∀ e ∈ g.2,
      (JNum.sub (num (getAttr d boxAttr)) (num (getAttr e boxAttr))).isFinite = true) :
    ∃ mn q1 md q3 mx : ℚ,
      mapGet (d3group selectedData (fun d => getAttr d colorAttr)) g.1 = g.2 ∧
      boxPlotStatistics (groupValues num boxAttr g.2) =
          (some (JNum.fin mn), some (JNum.fin q1), some (JNum.fin md), some (JNum.fin q3),
            some (JNum.fin mx)) ∧
      (groupValues num boxAttr g.2).Perm (g.2.map (fun d => num (getAttr d boxAttr))) ∧
      ((groupValues num boxAttr g.2).map JNum.toRat).Sorted (· ≤ ·) ∧
      mn = ((groupValues num boxAttr g.2).map JNum.toRat).getD 0 0 ∧
      mx = ((groupValues num boxAttr g.2).map JNum.toRat).getD
        ((groupValues num boxAttr g.2).length - 1) 0 ∧
      (∀ v ∈ (groupValues num boxAttr g.2).map JNum.toRat, mn ≤ v ∧ v ≤ mx) ∧
      q1 = quantileR7 ((groupValues num boxAttr g.2).map JNum.toRat) (1 / 4) ∧
      md = quantileR7 ((groupValues num boxAttr g.2).map JNum.toRat) (1 / 2) ∧
      q3 = quantileR7 ((groupValues num boxAttr g.2).map JNum.toRat) (3 / 4) ∧
      mn ≤ q1 ∧ q1 ≤ md ∧ md ≤ q3 ∧ q3 ≤ mx ∧
      JNum.le (JNum.fin mn) (JNum.fin q1) = true ∧
      JNum.le (JNum.fin q1) (JNum.fin md) = true ∧
      JNum.le (JNum.fin md) (JNum.fin q3) = true ∧
      JNum.le (JNum.fin q3) (JNum.fin mx) = true := by
  have hnd : (mapKeys (d3group selectedData (fun d => getAttr d colorAttr))).Nodup := by
    rw [mapKeys_d3group]; exact nodup_uniqueValues _
  have hget := mapGet_of_mem _ hnd g hg
  -- the values as rationals
  have hvals : g.2.map (fun d => num (getAttr d boxAttr)) =
      (g.2.map (fun d => (num (getAttr d boxAttr)).toRat)).map JNum.fin := by
    rw [List.map_map]
    apply List.map_congr_left
    intro d hd
    obtain ⟨q, hq, _⟩ := hfin d hd
    simp [hq, JNum.toRat]
  have hgv : groupValues num boxAttr g.2 =
      ((g.2.map (fun d => (num (getAttr d boxAttr)).toRat)).insertionSort (· ≤ ·)).map
        JNum.fin := by
    rw [groupValues, hvals, sortAscending_map_fin]
  have hrat : (groupValues num boxAttr g.2).map JNum.toRat =
      (g.2.map (fun d => (num (getAttr d boxAttr)).toRat)).insertionSort (· ≤ ·) := by
    rw [hgv, List.map_map]
    have : (JNum.toRat ∘ JNum.fin) = id := by
      funext q; rfl
    rw [this, List.map_id]
  have hs : ((g.2.map (fun d => (num (getAttr d boxAttr)).toRat)).insertionSort
      (· ≤ ·)).Sorted (· ≤ ·) := List.sorted_insertionSort _ _
  have hmem : ∀ v ∈ (g.2.map (fun d => (num (getAttr d boxAttr)).toRat)).insertionSort
      (· ≤ ·), ∃ d ∈ g.2, num (getAttr d boxAttr) = JNum.fin v := by
    intro v hv
    have hv2 := (List.perm_insertionSort _ _).mem_iff.1 hv
    obtain ⟨d, hd, e⟩ := List.mem_map.1 hv2
    obtain ⟨q, hq, _⟩ := hfin d hd
    refine ⟨d, hd, ?_⟩
    rw [hq] at e ⊢
    simp only [JNum.toRat] at e
    rw [e]
  have hr : ∀ v ∈ (g.2.map (fun d => (num (getAttr d boxAttr)).toRat)).insertionSort
      (· ≤ ·), -overflowLimit < v ∧ v < overflowLimit := by
    intro v hv
    obtain ⟨d, hd, e⟩ := hmem v hv
    obtain ⟨q, hq, h1, h2⟩ := hfin d hd
    rw [hq] at e
    cases e
    exact ⟨h1, h2⟩
  have hd : ∀ u ∈ (g.2.map (fun d => (num (getAttr d boxAttr)).toRat)).insertionSort
      (· ≤ ·), ∀ v ∈ (g.2.map (fun d => (num (getAttr d boxAttr)).toRat)).insertionSort
      (· ≤ ·), u - v < overflowLimit := by
    intro u hu v hv
    obtain ⟨d, hd, e1⟩ := hmem u hu
    obtain ⟨e, he, e2⟩ := hmem v hv
    have := hspan d hd e he
    rw [e1, e2] at this
    have h3 := (isFinite_ofRat (u + -v) this).2
    linarith
  have hl : ((g.2.map (fun d => (num (getAttr d boxAttr)).toRat)).insertionSort
      (· ≤ ·)).length = g.2.length := by
    rw [(List.perm_insertionSort _ _).length_eq]
    simp
  have hlen : (groupValues num boxAttr g.2).length = g.2.length := by
    simp [groupValues, length_sortAscending]
  have hn : 2 ≤ ((g.2.map (fun d => (num (getAttr d boxAttr)).toRat)).insertionSort
      (· ≤ ·)).length := by omega
  have hq1 := (quantileR7_bounds _ hs (1 / 4) (by norm_num) (by norm_num) hn).1
  have hq12 := quantileR7_mono _ hs (1 / 4) (1 / 2) (by norm_num) (by norm_num)
    (by norm_num) hn
  have hq23 := quantileR7_mono _ hs (1 / 2) (3 / 4) (by norm_num) (by norm_num)
    (by norm_num) hn
  have hq3 := (quantileR7_bounds _ hs (3 / 4) (by norm_num) (by norm_num) hn).2
  rw [hrat, hlen, ← hl]
  refine ⟨_, _, _, _, _, hget, ?_, perm_sortAscending _, hs, rfl, rfl, ?_, rfl, rfl, rfl,
    hq1, hq12, hq23, hq3, ?_, ?_, ?_, ?_⟩
  · rw [hgv]
    exact boxPlotStatistics_of_sorted _ hs hn hr hd
  · intro v hv
    obtain ⟨k, hk, e⟩ := List.getElem_of_mem hv
    have e2 : ((g.2.map (fun d => (num (getAttr d boxAttr)).toRat)).insertionSort
        (· ≤ ·)).getD k 0 = v := by
      rw [List.getD_eq_getElem _ 0 hk]; exact e
    rw [← e2]
    exact ⟨getD_le_getD_of_sorted _ hs 0 k (Nat.zero_le _) hk,
      getD_le_getD_of_sorted _ hs k _ (by omega) (by omega)⟩
  · simpa [le_fin_fin] using hq1
  · simpa [le_fin_fin] using hq12
  · simpa [le_fin_fin] using hq23
  · simpa [le_fin_fin] using hq3


/-! ## The ordinal colour scale -/

theorem ordinalScale_of_mem (domain : List Key) (d : Key) (h : d ∈ domain) :
    ordinalScale domain d = (schemeCategory10.getD (firstIndex domain d % 10) "", domain) := by
  simp [ordinalScale, h, schemeCategory10]

theorem ordinalScale_of_not_mem (domain : List Key) (d : Key) (h : d ∉ domain) :
    ordinalScale domain d =
      (schemeCategory10.getD (domain.length % 10) "", domain ++ [d]) := by
  have : firstIndex (domain ++ [d]) d = domain.length := by
    rw [firstIndex_append_of_not_mem _ _ _ h]
    simp [firstIndex]
  simp [ordinalScale, h, this, schemeCategory10]

theorem mem_ordinalScale (domain : List Key) (d : Key) : d ∈ (ordinalScale domain d).2 := by
  by_cases h : d ∈ domain
  · rw [ordinalScale_of_mem _ _ h]; exact h
  · rw [ordinalScale_of_not_mem _ _ h]; simp

theorem ordinalScale_again (domain : List Key) (d : Key) :
    ordinalScale (ordinalScale domain d).2 d = ordinalScale domain d := by
  by_cases h : d ∈ domain
  · rw [ordinalScale_of_mem _ _ h, ordinalScale_of_mem _ _ h]
  · rw [ordinalScale_of_not_mem _ _ h, ordinalScale_of_mem _ _ (by simp)]
    rw [firstIndex_append_of_not_mem _ _ _ h]
    simp [firstIndex]

/-! ## The loop body of drawBoxPlot -/

theorem circles_foldl_of_mem (group : Key) (cx : ℚ) (yScale : LinearScale) (domain : List Key)
    (hmem : group ∈ domain) (data : List JNum) :
    ∀ out : List Node,
    data.foldl (fun (acc : List Key × List Node) value =>
      let c := ordinalScale acc.1 group
      (c.2, acc.2 ++ [Node.mark
        (Mark.circle (JNum.fin cx) (yScale.apply value) 4 c.1)])) (domain, out) =
    (domain, out ++ data.map (fun value => Node.mark
      (Mark.circle (JNum.fin cx) (yScale.apply value) 4 (ordinalScale domain group).1))) := by
  induction data with
  | nil => intro out; simp
  | cons v rest ih =>
    intro out
    simp only [List.foldl_cons, List.map_cons]
    rw [ordinalScale_of_mem _ _ hmem]
    simp only []
    rw [ih]
    rw [ordinalScale_of_mem _ _ hmem]
    simp

theorem circles_foldl (group : Key) (cx : ℚ) (yScale : LinearScale) (acc : List Key × List Node)
    (data : List JNum) :
    (data.foldl (fun (acc : List Key × List Node) value =>
      let c := ordinalScale acc.1 group
      (c.2, acc.2 ++ [Node.mark
        (Mark.circle (JNum.fin cx) (yScale.apply value) 4 c.1)])) acc).2 =
    acc.2 ++ data.map (fun value => Node.mark
      (Mark.circle (JNum.fin cx) (yScale.apply value) 4 (ordinalScale acc.1 group).1)) ∧
    (data.foldl (fun (acc : List Key × List Node) value =>
      let c := ordinalScale acc.1 group
      (c.2, acc.2 ++ [Node.mark
        (Mark.circle (JNum.fin cx) (yScale.apply value) 4 c.1)])) acc).1 =
    (if data = [] then acc.1 else (ordinalScale acc.1 group).2) := by
  cases data with
  | nil => simp
  | cons v rest =>
    obtain ⟨domain, out⟩ := acc
    simp only [List.foldl_cons, List.map_cons]
    rw [circles_foldl_of_mem group cx yScale _ (mem_ordinalScale domain group) rest]
    simp [ordinalScale_again]

/-- A round of the loop on a group of fewer than five rows appends one circle
per value of the group and nothing else. -/
theorem boxPlotGroup_small (num : Key → JNum) (boxAttr : String)
    (groupedData : List (Key × List Row)) (height bw : ℚ) (yScale : LinearScale)
    (acc : List Key × List Node) (group : Key) (i : ℕ)
    (hlt : (mapGet groupedData group).length < 5) :
    (boxPlotGroup num boxAttr groupedData height bw yScale acc group i).2 =
      acc.2 ++ (groupValues num boxAttr (mapGet groupedData group)).map (fun value => Node.mark
        (Mark.circle (JNum.fin ((i : ℚ) * bw + 80)) (yScale.apply value) 4
          (ordinalScale acc.1 group).1)) := by
  have hl : (groupValues num boxAttr (mapGet groupedData group)).length =
      (mapGet groupedData group).length := by
    simp [groupValues, length_sortAscending]
  have hlt2 : (groupValues num boxAttr (mapGet groupedData group)).length < 5 := by omega
  simp only [boxPlotGroup, hlt2, if_true]
  exact (circles_foldl group _ yScale acc _).1

theorem forEachFrom_append {σ α : Type} (f : σ → α → ℕ → σ) (l1 l2 : List α) :
    ∀ (i : ℕ) (s : σ),
      forEachFrom f (l1 ++ l2) i s = forEachFrom f l2 (i + l1.length) (forEachFrom f l1 i s) := by
  induction l1 with
  | nil => intro i s; simp [forEachFrom]
  | cons a rest ih =>
    intro i s
    rw [List.cons_append]
    simp only [forEachFrom, List.length_cons]
    rw [ih]
    congr 1
    omega

theorem groupValues_ne_nil (num : Key → JNum) (boxAttr : String) (rows : List Row)
    (h : rows ≠ []) : groupValues num boxAttr rows ≠ [] := by
  intro e
  have hl : (groupValues num boxAttr rows).length = rows.length := by
    simp [groupValues, length_sortAscending]
  rw [e] at hl
  exact h (List.eq_nil_of_length_eq_zero hl.symm)

/-- What one round of the loop does to the colour scale and to the SVG. -/
theorem boxPlotGroup_appends (num : Key → JNum) (boxAttr : String)
    (groupedData : List (Key × List Row)) (height bw : ℚ) (yScale : LinearScale)
    (acc : List Key × List Node) (group : Key) (i : ℕ)
    (hne : mapGet groupedData group ≠ []) :
    (boxPlotGroup num boxAttr groupedData height bw yScale acc group i).1 =
      (ordinalScale acc.1 group).2 ∧
    ∃ new : List Node, new ≠ [] ∧
      (boxPlotGroup num boxAttr groupedData height bw yScale acc group i).2 = acc.2 ++ new ∧
      ∀ n ∈ new, Node.fills n = [(ordinalScale acc.1 group).1] := by
  have hd := groupValues_ne_nil num boxAttr _ hne
  by_cases hlt : (groupValues num boxAttr (mapGet groupedData group)).length < 5
  · have hc := circles_foldl group ((i : ℚ) * bw + 80) yScale acc
      (groupValues num boxAttr (mapGet groupedData group))
    simp only [boxPlotGroup, hlt, if_true]
    refine ⟨by rw [hc.2]; simp [hd], _, ?_, hc.1, ?_⟩
    · simpa using hd
    · intro n hn
      obtain ⟨v, _, rfl⟩ := List.mem_map.1 hn
      rfl
  · simp only [boxPlotGroup, hlt, if_false, boxPlotStatistics]
    refine ⟨?_, _, ?_, rfl, ?_⟩
    · trivial
    · simp
    · intro n hn
      simp only [List.mem_singleton] at hn
      subst hn
      simp [Node.fills]

theorem boxPlotGroup_extends (num : Key → JNum) (boxAttr : String)
    (groupedData : List (Key × List Row)) (height bw : ℚ) (yScale : LinearScale)
    (acc : List Key × List Node) (group : Key) (i : ℕ) :
    ∃ new : List Node,
      (boxPlotGroup num boxAttr groupedData height bw yScale acc group i).2 = acc.2 ++ new := by
  by_cases hlt : (groupValues num boxAttr (mapGet groupedData group)).length < 5
  · have hc := circles_foldl group ((i : ℚ) * bw + 80) yScale acc
      (groupValues num boxAttr (mapGet groupedData group))
    simp only [boxPlotGroup, hlt, if_true]
    exact ⟨_, hc.1⟩
  · simp only [boxPlotGroup, hlt, if_false, boxPlotStatistics]
    exact ⟨_, rfl⟩

theorem boxPlotLoop_extends (num : Key → JNum) (boxAttr : String)
    (groupedData : List (Key × List Row)) (height bw : ℚ) (yScale : LinearScale)
    (keys : List Key) :
    ∀ (i : ℕ) (acc : List Key × List Node), ∃ more : List Node,
      (forEachFrom (boxPlotGroup num boxAttr groupedData height bw yScale) keys i acc).2 =
        acc.2 ++ more := by
  induction keys with
  | nil => intro i acc; exact ⟨[], by simp [forEachFrom]⟩
  | cons k rest ih =>
    intro i acc
    obtain ⟨new, hnew⟩ := boxPlotGroup_extends num boxAttr groupedData height bw yScale acc k i
    obtain ⟨more, hmore⟩ := ih (i + 1)
      (boxPlotGroup num boxAttr groupedData height bw yScale acc k i)
    refine ⟨new ++ more, ?_⟩
    simp only [forEachFrom]
    rw [hmore, hnew, List.append_assoc]

theorem boxPlotLoop_domain (num : Key → JNum) (boxAttr : String)
    (groupedData : List (Key × List Row)) (height bw : ℚ) (yScale : LinearScale)
    (keys : List Key) :
    ∀ (i : ℕ) (acc : List Key × List Node), keys.Nodup → (∀ k ∈ keys, k ∉ acc.1) →
      (∀ k ∈ keys, mapGet groupedData k ≠ []) →
      (forEachFrom (boxPlotGroup num boxAttr groupedData height bw yScale) keys i acc).1 =
        acc.1 ++ keys := by
  induction keys with
  | nil => intro i acc _ _ _; simp [forEachFrom]
  | cons k rest ih =>
    intro i acc hnd hfresh hne
    have hk : k ∉ acc.1 := hfresh k (List.mem_cons_self _ _)
    have h1 := (boxPlotGroup_appends num boxAttr groupedData height bw yScale acc k i
      (hne k (List.mem_cons_self _ _))).1
    rw [ordinalScale_of_not_mem _ _ hk] at h1
    simp only [forEachFrom]
    rw [ih (i + 1) _ (List.nodup_cons.1 hnd).2 ?_
      (fun k2 hk2 => hne k2 (List.mem_cons_of_mem _ hk2)), h1]
    · simp
    · intro k2 hk2
      rw [h1]
      simp only [List.mem_append, List.mem_singleton, not_or]
      refine ⟨hfresh k2 (List.mem_cons_of_mem _ hk2), ?_⟩
      rintro rfl
      exact (List.nodup_cons.1 hnd).1 hk2

theorem mapGet_d3group_ne_nil (values : List Row) (keyof : Row → Key) (k : Key)
    (hk : k ∈ mapKeys (d3group values keyof)) : mapGet (d3group values keyof) k ≠ [] := by
  rw [mapKeys_d3group, mem_uniqueValues] at hk
  obtain ⟨d, hd, e⟩ := List.mem_map.1 hk
  rw [mapGet_d3group]
  apply List.ne_nil_of_mem (a := d)
  simp [List.mem_filter, hd, e]

theorem boxPlotLoopState_domain (num : Key → JNum) (boxAttr colorAttr : String)
    (selectedData : List Row) (i : ℕ) :
    (boxPlotLoopState num boxAttr colorAttr selectedData i).1 =
      (mapKeys (d3group selectedData (fun d => getAttr d colorAttr))).take i := by
  have hnd : (mapKeys (d3group selectedData (fun d => getAttr d colorAttr))).Nodup := by
    rw [mapKeys_d3group]; exact nodup_uniqueValues _
  simp only [boxPlotLoopState]
  rw [boxPlotLoop_domain _ _ _ _ _ _ _ 0 _ (hnd.sublist (List.take_sublist _ _))
    (by simp)
    (fun k hk => mapGet_d3group_ne_nil _ _ k (List.mem_of_mem_take hk))]
  simp

theorem boxPlotLoopState_succ (num : Key → JNum) (boxAttr colorAttr : String)
    (selectedData : List Row) (i : ℕ) (k : Key)
    (hk : (mapKeys (d3group selectedData (fun d => getAttr d colorAttr)))[i]? = some k) :
    boxPlotLoopState num boxAttr colorAttr selectedData (i + 1) =
      boxPlotGroup num boxAttr (d3group selectedData (fun d => getAttr d colorAttr)) 400
        (boxWidth 600 (mapKeys (d3group selectedData (fun d => getAttr d colorAttr))).length)
        (boxPlotYScale num boxAttr selectedData)
        (boxPlotLoopState num boxAttr colorAttr selectedData i) k i := by
  obtain ⟨hi, e⟩ := List.getElem?_eq_some.1 hk
  have ht : (mapKeys (d3group selectedData (fun d => getAttr d colorAttr))).take (i + 1) =
      (mapKeys (d3group selectedData (fun d => getAttr d colorAttr))).take i ++ [k] := by
    rw [List.take_succ, hk]; rfl
  simp only [boxPlotLoopState]
  rw [ht, forEachFrom_append]
  have hlen : 0 + (List.take i
      (mapKeys (d3group selectedData (fun d => getAttr d colorAttr)))).length = i := by
    simp; omega
  rw [hlen]
  simp [forEachFrom]

theorem boxPlotLoopState_length (num : Key → JNum) (boxAttr colorAttr : String)
    (selectedData : List Row) :
    boxPlotLoopState num boxAttr colorAttr selectedData
        (d3group selectedData (fun d => getAttr d colorAttr)).length =
      boxPlotSvg num boxAttr colorAttr selectedData := by
  have : (d3group selectedData (fun d => getAttr d colorAttr)).length =
      (mapKeys (d3group selectedData (fun d => getAttr d colorAttr))).length := by
    simp [mapKeys]
  simp only [boxPlotLoopState, boxPlotSvg, boxPlotYScale, this, List.take_length]

/-- The rounds after index `i` only append to what the first `i` rounds drew. -/
theorem boxPlotLoopState_extends (num : Key → JNum) (boxAttr colorAttr : String)
    (selectedData : List Row) (i : ℕ) :
    ∃ after : List Node,
      (boxPlotLoopState num boxAttr colorAttr selectedData
        (d3group selectedData (fun d => getAttr d colorAttr)).length).2 =
      (boxPlotLoopState num boxAttr colorAttr selectedData i).2 ++ after := by
  have hlen : (d3group selectedData (fun d => getAttr d colorAttr)).length =
      (mapKeys (d3group selectedData (fun d => getAttr d colorAttr))).length := by
    simp [mapKeys]
  have hsplit : (mapKeys (d3group selectedData (fun d => getAttr d colorAttr))).take
        (d3group selectedData (fun d => getAttr d colorAttr)).length =
      (mapKeys (d3group selectedData (fun d => getAttr d colorAttr))).take i ++
        (mapKeys (d3group selectedData (fun d => getAttr d colorAttr))).drop i := by
    rw [hlen, List.take_length, List.take_append_drop]
  simp only [boxPlotLoopState]
  rw [hsplit, forEachFrom_append]
  exact boxPlotLoop_extends _ _ _ _ _ _ _ _ _

/-- The colour the scale returns for the group at position `i`. -/
theorem boxPlotLoopState_fill (num : Key → JNum) (boxAttr colorAttr : String)
    (selectedData : List Row) (i : ℕ) (g : Key × List Row)
    (hg : (d3group selectedData (fun d => getAttr d colorAttr))[i]? = some g) :
    (ordinalScale (boxPlotLoopState num boxAttr colorAttr selectedData i).1 g.1).1 =
      schemeCategory10.getD (i % 10) "" := by
  have hk : (mapKeys (d3group selectedData (fun d => getAttr d colorAttr)))[i]? =
      some g.1 := by
    simp [mapKeys, List.getElem?_map, hg]
  have hnd : (mapKeys (d3group selectedData (fun d => getAttr d colorAttr))).Nodup := by
    rw [mapKeys_d3group]; exact nodup_uniqueValues _
  obtain ⟨hi, e⟩ := List.getElem?_eq_some.1 hk
  have hfresh : g.1 ∉ (boxPlotLoopState num boxAttr colorAttr selectedData i).1 := by
    rw [boxPlotLoopState_domain]
    intro hm
    obtain ⟨j, hj, ej⟩ := List.getElem_of_mem hm
    have hj2 : j < i := by
      have := hj
      simp only [List.length_take] at this
      omega
    rw [List.getElem_take] at ej
    have := (List.Nodup.getElem_inj_iff hnd).1 (ej.trans e.symm)
    omega
  have hlen : (boxPlotLoopState num boxAttr colorAttr selectedData i).1.length = i := by
    rw [boxPlotLoopState_domain, List.length_take]
    omega
  rw [ordinalScale_of_not_mem _ _ hfresh, hlen]

/-- C3: for every selection and every group of it with fewer than five rows, the
SVG `drawBoxPlot` leaves is what the loop over the groups has built, the round
of the loop for that group appends to it exactly one circle per value of the
group, in the order of the sorted values, each at the group's horizontal
position and in the group's colour, and nothing else (no box, whisker, median
line or label), and the later rounds only append after these circles; the
sorted values are a permutation of the group's boxplot-attribute values, as
many as the group has rows, and ascending whenever none of them is `NaN`. -/
theorem small_group_draws_markers (num : Key → JNum) (page : Page) (selectedData : List Row)
    (i : ℕ) (g : Key × List Row)
    (hg : (d3group selectedData (fun d => getAttr d page.colorAttribute))[i]? = some g)
    (hlt : g.2.length < 5) :
    (drawBoxPlot num selectedData page).boxPlot =
      some (boxPlotLoopState num page.boxplotAttribute page.colorAttribute selectedData
        (d3group selectedData (fun d => getAttr d page.colorAttribute)).length).2 ∧
    (boxPlotLoopState num page.boxplotAttribute page.colorAttribute selectedData (i + 1)).2 =
      (boxPlotLoopState num page.boxplotAttribute page.colorAttribute selectedData i).2 ++
        (groupValues num page.boxplotAttribute g.2).map (fun value => Node.mark
          (Mark.circle
            (JNum.fin ((i : ℚ) * boxWidth 600
              (d3group selectedData (fun d => getAttr d page.colorAttribute)).length + 80))
            ((boxPlotYScale num page.boxplotAttribute selectedData).apply value) 4
            (schemeCategory10.getD (i % 10) ""))) ∧
    (∃ after : List Node,
      (boxPlotLoopState num page.boxplotAttribute page.colorAttribute selectedData
        (d3group selectedData (fun d => getAttr d page.colorAttribute)).length).2 =
      (boxPlotLoopState num page.boxplotAttribute page.colorAttribute selectedData (i + 1)).2 ++
        after) ∧
    (groupValues num page.boxplotAttribute g.2).Perm
      (g.2.map (fun d => num (getAttr d page.boxplotAttribute))) ∧
    (groupValues num page.boxplotAttribute g.2).length = g.2.length ∧
    g.2 ≠ [] ∧
    ((∀ d ∈ g.2, (num (getAttr d page.boxplotAttribute)).isNaN = false) →
      (groupValues num page.boxplotAttribute g.2).Sorted (fun a b => JNum.le a b = true)) := by
  have hnd : (mapKeys (d3group selectedData
      (fun d => getAttr d page.colorAttribute))).Nodup := by
    rw [mapKeys_d3group]; exact nodup_uniqueValues _
  obtain ⟨hi, e⟩ := List.getElem?_eq_some.1 hg
  have hmem : g ∈ d3group selectedData (fun d => getAttr d page.colorAttribute) :=
    e ▸ List.getElem_mem hi
  have hget := mapGet_of_mem _ hnd g hmem
  have hk : (mapKeys (d3group selectedData (fun d => getAttr d page.colorAttribute)))[i]? =
      some g.1 := by
    simp [mapKeys, List.getElem?_map, hg]
  have hsel : selectedData ≠ [] := by
    rintro rfl
    simp [d3group] at hi
  have hlenk : (mapKeys (d3group selectedData
      (fun d => getAttr d page.colorAttribute))).length =
      (d3group selectedData (fun d => getAttr d page.colorAttribute)).length := by
    simp [mapKeys]
  have hl : (groupValues num page.boxplotAttribute g.2).length = g.2.length := by
    simp [groupValues, length_sortAscending]
  refine ⟨?_, ?_, boxPlotLoopState_extends _ _ _ _ _, perm_sortAscending _, hl,
    ?_, ?_⟩
  · have hne : ¬ selectedData.length = 0 := fun h => hsel (List.eq_nil_of_length_eq_zero h)
    simp only [drawBoxPlot, hne, if_false]
    rw [boxPlotLoopState_length]
  · rw [boxPlotLoopState_succ _ _ _ _ _ _ hk,
      boxPlotGroup_small _ _ _ _ _ _ _ _ _ (by rw [hget]; exact hlt), hget,
      boxPlotLoopState_fill _ _ _ _ _ _ hg, hlenk]
  · have := mapGet_d3group_ne_nil _ _ g.1 (List.mem_map_of_mem Prod.fst hmem)
    rwa [hget] at this
  · intro hnan
    apply sorted_sortAscending_of_not_nan
    intro v hv
    obtain ⟨d, hd, rfl⟩ := List.mem_map.1 hv
    exact hnan d hd

/-! ## Colours of the boxplot and of the scatterplot -/

theorem scatter_foldl (num : Key → JNum) (xAttr yAttr colorAttr : String)
    (xScale yScale : LinearScale) (dataset : List Row) :
    (dataset.foldl (fun (acc : List Key × List Point) d =>
      let c := ordinalScale acc.1 (getAttr d colorAttr)
      (c.2, acc.2 ++ [
        { datum := d
          cx := xScale.apply (num (getAttr d xAttr))
          cy := yScale.apply (num (getAttr d yAttr))
          r := 5
          fill := c.1
          selected := false
          not_selected := false }])) ([], [])).1 =
      uniqueValues (dataset.map (fun d => getAttr d colorAttr)) ∧
    (dataset.foldl (fun (acc : List Key × List Point) d =>
      let c := ordinalScale acc.1 (getAttr d colorAttr)
      (c.2, acc.2 ++ [
        { datum := d
          cx := xScale.apply (num (getAttr d xAttr))
          cy := yScale.apply (num (getAttr d yAttr))
          r := 5
          fill := c.1
          selected := false
          not_selected := false }])) ([], [])).2.map (fun pt => (pt.datum, pt.fill)) =
      dataset.map (fun d => (d, schemeCategory10.getD
        (firstIndex (uniqueValues (dataset.map (fun d => getAttr d colorAttr)))
          (getAttr d colorAttr) % 10) "")) := by
  induction dataset using List.reverseRecOn with
  | nil => simp [uniqueValues]
  | append_singleton rest d ih =>
    obtain ⟨ih1, ih2⟩ := ih
    simp only [List.foldl_append, List.foldl_cons, List.foldl_nil, List.map_append,
      List.map_cons, List.map_nil]
    rw [ih1, ih2, uniqueValues_snoc]
    by_cases hm : getAttr d colorAttr ∈ uniqueValues (rest.map (fun d => getAttr d colorAttr))
    · rw [ordinalScale_of_mem _ _ hm]
      simp only [hm, if_true, true_and]
    · rw [ordinalScale_of_not_mem _ _ hm]
      simp only [hm, if_false, true_and]
      congr 1
      · apply List.map_congr_left
        intro e he
        rw [firstIndex_append_of_mem _ _ _
          ((mem_uniqueValues _ _).2 (List.mem_map_of_mem _ he))]
      · rw [firstIndex_append_of_not_mem _ _ _ hm]
        simp [firstIndex]

theorem colorKey_foldl (domain : List Key) (values : List Key) (h : ∀ v ∈ values, v ∈ domain) :
    ∀ out : List (String × Key),
    values.foldl (fun (acc : List Key × List (String × Key)) value =>
      let c := ordinalScale acc.1 value
      (c.2, acc.2 ++ [(c.1, value)])) (domain, out) =
    (domain, out ++ values.map (fun v =>
      (schemeCategory10.getD (firstIndex domain v % 10) "", v))) := by
  induction values with
  | nil => intro out; simp
  | cons v rest ih =>
    intro out
    simp only [List.foldl_cons, List.map_cons]
    rw [ordinalScale_of_mem _ _ (h v (List.mem_cons_self _ _))]
    simp only []
    rw [ih (fun w hw => h w (List.mem_cons_of_mem _ hw))]
    simp

/-- C10: in the boxplot every element the loop draws for the group at position
`i` of the selection's groups (first-encountered order within the selection)
is filled with palette entry `i mod 10`; in the scatterplot the circle of a
row, and in the legend the swatch of a value, is filled with the palette entry
at the position of the value among the distinct values of the whole dataset
in first-encountered order; and for the dataset with categories `A`, `B` and
the selection holding only the row of `B`, `B` is orange in the scatterplot
and the legend and blue in the boxplot. -/
theorem boxplot_colours_follow_selection_order :
    (∀ (num : Key → JNum) (boxAttr colorAttr : String) (selectedData : List Row) (i : ℕ)
        (g : Key × List Row),
      (d3group selectedData (fun d => getAttr d colorAttr))[i]? = some g →
      ∃ new : List Node, new ≠ [] ∧
        (boxPlotLoopState num boxAttr colorAttr selectedData (i + 1)).2 =
          (boxPlotLoopState num boxAttr colorAttr selectedData i).2 ++ new ∧
        ∀ n ∈ new, Node.fills n = [schemeCategory10.getD (i % 10) ""]) ∧
    (∀ (num : Key → JNum) (boxAttr colorAttr : String) (selectedData : List Row),
      boxPlotLoopState num boxAttr colorAttr selectedData
          (d3group selectedData (fun d => getAttr d colorAttr)).length =
        boxPlotSvg num boxAttr colorAttr selectedData) ∧
    (∀ (num : Key → JNum) (xAttr yAttr colorAttr : String) (dataset : List Row),
      (scatterPoints num xAttr yAttr colorAttr dataset).2.map (fun pt => (pt.datum, pt.fill)) =
        dataset.map (fun d => (d, schemeCategory10.getD
          (firstIndex (uniqueValues (dataset.map (fun d => getAttr d colorAttr)))
            (getAttr d colorAttr) % 10) ""))) ∧
    (∀ (num : Key → JNum) (xAttr yAttr colorAttr : String) (dataset : List Row),
      drawColorKey colorAttr (scatterPoints num xAttr yAttr colorAttr dataset).1 dataset =
        (uniqueValues (dataset.map (fun d => getAttr d colorAttr))).map (fun v =>
          (schemeCategory10.getD
            (firstIndex (uniqueValues (dataset.map (fun d => getAttr d colorAttr))) v % 10) "",
            v))) ∧
    ([sampleRow "B" "X" "2" "3"].Sublist
        [sampleRow "A" "X" "1" "5", sampleRow "B" "X" "2" "3"] ∧
      (scatterPoints sampleNum "mass" "len" "species"
          [sampleRow "A" "X" "1" "5", sampleRow "B" "X" "2" "3"]).2.map
            (fun pt => (getAttr pt.datum "species", pt.fill)) =
        [(some "A", "#1f77b4"), (some "B", "#ff7f0e")] ∧
      drawColorKey "species"
          (scatterPoints sampleNum "mass" "len" "species"
            [sampleRow "A" "X" "1" "5", sampleRow "B" "X" "2" "3"]).1
          [sampleRow "A" "X" "1" "5", sampleRow "B" "X" "2" "3"] =
        [("#1f77b4", some "A"), ("#ff7f0e", some "B")] ∧
      mapKeys (d3group [sampleRow "B" "X" "2" "3"] (fun d => getAttr d "species")) =
        [some "B"] ∧
      ((boxPlotSvg sampleNum "mass" "species" [sampleRow "B" "X" "2" "3"]).2.map
          Node.fills).flatten = ["#1f77b4"]) := by
  refine ⟨?_, boxPlotLoopState_length, ?_, ?_, ?_⟩
  · intro num boxAttr colorAttr selectedData i g hg
    have hk : (mapKeys (d3group selectedData (fun d => getAttr d colorAttr)))[i]? =
        some g.1 := by
      simp [mapKeys, List.getElem?_map, hg]
    obtain ⟨hi, e⟩ := List.getElem?_eq_some.1 hk
    have hmem : g.1 ∈ mapKeys (d3group selectedData (fun d => getAttr d colorAttr)) :=
      e ▸ List.getElem_mem hi
    obtain ⟨_, new, hne, happ, hfill⟩ := boxPlotGroup_appends num boxAttr
      (d3group selectedData (fun d => getAttr d colorAttr)) 400
      (boxWidth 600 (mapKeys (d3group selectedData (fun d => getAttr d colorAttr))).length)
      (boxPlotYScale num boxAttr selectedData)
      (boxPlotLoopState num boxAttr colorAttr selectedData i) g.1 i
      (mapGet_d3group_ne_nil _ _ _ hmem)
    refine ⟨new, hne, ?_, ?_⟩
    · rw [boxPlotLoopState_succ num boxAttr colorAttr selectedData i g.1 hk]
      exact happ
    · intro n hn
      rw [hfill n hn, boxPlotLoopState_fill _ _ _ _ _ _ hg]
  · intro num xAttr yAttr colorAttr dataset
    exact (scatter_foldl num xAttr yAttr colorAttr _ _ dataset).2
  · intro num xAttr yAttr colorAttr dataset
    have h1 : (scatterPoints num xAttr yAttr colorAttr dataset).1 =
        uniqueValues (dataset.map (fun d => getAttr d colorAttr)) :=
      (scatter_foldl num xAttr yAttr colorAttr _ _ dataset).1
    simp only [drawColorKey, h1]
    rw [colorKey_foldl _ _ (fun v hv => hv)]
    simp
  · decide


/-! ## Horizontal layout of the boxes -/

/-- For two to twenty-nine groups the slot is positive, every box lies within
the 600 units of the surface and boxes of different groups are disjoint. -/
theorem boxLayout_fits_of_range (n i j : ℕ) (h2 : 2 ≤ n) (h29 : n ≤ 29) (hij : i < j)
    (hj : j < n) :
    0 < boxWidth 600 n ∧
    0 ≤ (i : ℚ) * boxWidth 600 n + 80 - boxWidth 600 n / 4 ∧
    (j : ℚ) * boxWidth 600 n + 80 + boxWidth 600 n / 4 ≤ 600 ∧
    (i : ℚ) * boxWidth 600 n + 80 + boxWidth 600 n / 4 <
      (j : ℚ) * boxWidth 600 n + 80 - boxWidth 600 n / 4 := by
  have hn : (0 : ℚ) < (n : ℚ) := by exact_mod_cast (by omega : 0 < n)
  have hn2 : (2 : ℚ) ≤ (n : ℚ) := by exact_mod_cast h2
  have hn29 : (n : ℚ) ≤ 29 := by exact_mod_cast h29
  have hi0 : (0 : ℚ) ≤ (i : ℚ) := by exact_mod_cast Nat.zero_le i
  have hij2 : (i : ℚ) + 1 ≤ (j : ℚ) := by exact_mod_cast hij
  have hjn : (j : ℚ) + 1 ≤ (n : ℚ) := by exact_mod_cast hj
  have hmul : (n : ℚ) * boxWidth 600 n = 600 - 20 * (n : ℚ) := by
    unfold boxWidth
    field_simp
    ring
  have hpos : 0 < boxWidth 600 n := by
    by_contra hneg
    have hle : boxWidth 600 n ≤ 0 := not_lt.1 hneg
    nlinarith [mul_nonneg hn.le (neg_nonneg.2 hle)]
  have hup : boxWidth 600 n ≤ 280 := by
    by_contra hgt
    have hlt : 280 < boxWidth 600 n := not_le.1 hgt
    nlinarith [mul_lt_mul_of_pos_left hlt hn]
  refine ⟨hpos, ?_, ?_, ?_⟩
  · nlinarith [mul_nonneg hi0 hpos.le]
  · have h1 : (j : ℚ) * boxWidth 600 n ≤ ((n : ℚ) - 1) * boxWidth 600 n :=
      mul_le_mul_of_nonneg_right (by linarith) hpos.le
    nlinarith
  · nlinarith [mul_le_mul_of_nonneg_right hij2 hpos.le]

/-- C9 (the code at a failing input): for a selection of five rows of a single
group the slot is 580 wide and the box is a rectangle of width 290 whose left
edge is at -145 in a group translated by 80, so it spans [-65, 225] and
leaves the drawing surface [0, 600] on the left; and for thirty groups the
slot has width 0. -/
theorem single_group_box_leaves_surface :
    mapKeys (d3group fiveRows (fun d => getAttr d "species")) = [some "A"] ∧
    boxWidth 600 1 = 580 ∧
    (boxPlotSvg sampleNum "mass" "species" fiveRows).2 =
      [Node.axisLeft 50
          { domain0 := JNum.fin 1, domain1 := JNum.fin 5, range0 := 350, range1 := 50 },
       Node.g 80
        [Mark.rect (-145) 290 (JNum.fin 125) (JNum.fin 150) "#1f77b4" (7 / 10),
         Mark.line 0 0 (JNum.fin 350) (JNum.fin 275) "black",
         Mark.line 0 0 (JNum.fin 125) (JNum.fin 50) "black",
         Mark.line (-145) 145 (JNum.fin 200) (JNum.fin 200) "black",
         Mark.text (-145) 370 "middle" (some "A")]] ∧
    (0 : ℚ) * boxWidth 600 1 + 80 - boxWidth 600 1 / 4 = -65 ∧
    (0 : ℚ) * boxWidth 600 1 + 80 - boxWidth 600 1 / 4 < 0 ∧
    boxWidth 600 30 = 0 := by
  refine ⟨by decide!, by decide!, by decide!, by decide!, by decide!, by decide!⟩


/-! ## The statements at sample inputs -/

/-- The C5 statement on the sample dataset: the numeral-named column comes
first, `2` and `mass` are quantitative, `#`, `Name` and `species` categorical. -/
theorem populateDropdowns_classifies_witness :
    sampleTable ≠ [] ∧
    objectKeys [("#", "1"), ("Name", "2"), ("mass", "3"), ("2", "4"), ("species", "A")] =
      ["2", "#", "Name", "mass", "species"] ∧
    populateDropdowns sampleNum sampleTable =
      some { xAttribute := ["2", "mass"], yAttribute := ["2", "mass"],
             colorAttribute := ["#", "Name", "species"], boxplotAttribute := ["2", "mass"] } ∧
    ∃ (d0 : Row) (opts : DropdownOptions),
      sampleTable.head? = some d0 ∧ populateDropdowns sampleNum sampleTable = some opts ∧
      opts.yAttribute = opts.xAttribute ∧ opts.boxplotAttribute = opts.xAttribute ∧
      (∀ col, col ∈ opts.xAttribute ↔
        (∃ v, (col, v) ∈ d0) ∧
          (∀ d ∈ sampleTable, (sampleNum (getAttr d col)).isNaN = false) ∧
          col ≠ "#" ∧ col ≠ "Name") ∧
      (∀ col, col ∈ opts.colorAttribute ↔
        (∃ v, (col, v) ∈ d0) ∧
          ¬ ((∀ d ∈ sampleTable, (sampleNum (getAttr d col)).isNaN = false) ∧
          col ≠ "#" ∧ col ≠ "Name")) ∧
      ∀ col v, (col, v) ∈ d0 →
        (col ∈ opts.xAttribute ∧ col ∉ opts.colorAttribute) ∨
          (col ∉ opts.xAttribute ∧ col ∈ opts.colorAttribute) :=
  ⟨by decide, by decide!, by decide!,
    populateDropdowns_classifies sampleNum sampleTable (by decide)⟩

/-- The C4 statement on a selection of three rows in two groups. -/
theorem drawBoxPlot_groups_partition_witness :
    [sampleRow "B" "X" "2" "3", sampleRow "A" "X" "1" "5", sampleRow "B" "Y" "4" "1"] ≠ [] ∧
    (d3group [sampleRow "B" "X" "2" "3", sampleRow "A" "X" "1" "5", sampleRow "B" "Y" "4" "1"]
        (fun d => getAttr d "species") ≠ [] ∧
      (mapKeys (d3group
        [sampleRow "B" "X" "2" "3", sampleRow "A" "X" "1" "5", sampleRow "B" "Y" "4" "1"]
        (fun d => getAttr d "species"))).Nodup ∧
      (∀ g ∈ d3group
          [sampleRow "B" "X" "2" "3", sampleRow "A" "X" "1" "5", sampleRow "B" "Y" "4" "1"]
          (fun d => getAttr d "species"),
        g.2 ≠ [] ∧ g.2 = List.filter (fun d => getAttr d "species" = g.1)
          [sampleRow "B" "X" "2" "3", sampleRow "A" "X" "1" "5", sampleRow "B" "Y" "4" "1"]) ∧
      (∀ d ∈ [sampleRow "B" "X" "2" "3", sampleRow "A" "X" "1" "5", sampleRow "B" "Y" "4" "1"],
        ∃! g, g ∈ d3group
          [sampleRow "B" "X" "2" "3", sampleRow "A" "X" "1" "5", sampleRow "B" "Y" "4" "1"]
          (fun d => getAttr d "species") ∧ d ∈ g.2) ∧
      ((d3group [sampleRow "B" "X" "2" "3", sampleRow "A" "X" "1" "5", sampleRow "B" "Y" "4" "1"]
        (fun d => getAttr d "species")).map (fun g => g.2.length)).sum =
        [sampleRow "B" "X" "2" "3", sampleRow "A" "X" "1" "5",
          sampleRow "B" "Y" "4" "1"].length ∧
      List.Pairwise
        (fun a b =>
          firstIndex (List.map (fun d => getAttr d "species")
            [sampleRow "B" "X" "2" "3", sampleRow "A" "X" "1" "5", sampleRow "B" "Y" "4" "1"]) a <
          firstIndex (List.map (fun d => getAttr d "species")
            [sampleRow "B" "X" "2" "3", sampleRow "A" "X" "1" "5", sampleRow "B" "Y" "4" "1"]) b)
        (mapKeys (d3group
          [sampleRow "B" "X" "2" "3", sampleRow "A" "X" "1" "5", sampleRow "B" "Y" "4" "1"]
          (fun d => getAttr d "species")))) :=
  ⟨by simp, drawBoxPlot_groups_partition "species" _ (by simp)⟩

theorem exists_fin_of_isFinite (v : JNum)
    (h : v.isFinite = true ∧ -overflowLimit < v.toRat ∧ v.toRat < overflowLimit) :
    ∃ q : ℚ, v = JNum.fin q ∧ -overflowLimit < q ∧ q < overflowLimit := by
  cases v with
  | fin q => exact ⟨q, rfl, h.2.1, h.2.2⟩
  | nan => simp [JNum.isFinite] at h
  | negInf => simp [JNum.isFinite] at h
  | posInf => simp [JNum.isFinite] at h

/-- The amended C2 statement on the group of five sample rows. -/
theorem boxPlotStatistics_ordered_of_finite_witness :
    ((some "A", fiveRows) : Key × List Row) ∈
      d3group fiveRows (fun d => getAttr d "species") ∧
    5 ≤ fiveRows.length ∧
    (∀ d ∈ fiveRows, ∃ q : ℚ, sampleNum (getAttr d "mass") = JNum.fin q ∧
      -overflowLimit < q ∧ q < overflowLimit) ∧
    (∀ d ∈ fiveRows, ∀ e ∈ fiveRows,
      (JNum.sub (sampleNum (getAttr d "mass")) (sampleNum (getAttr e "mass"))).isFinite =
        true) ∧
    ∃ mn q1 md q3 mx : ℚ,
      mapGet (d3group fiveRows (fun d => getAttr d "species")) (some "A") = fiveRows ∧
      boxPlotStatistics (groupValues sampleNum "mass" fiveRows) =
          (some (JNum.fin mn), some (JNum.fin q1), some (JNum.fin md), some (JNum.fin q3),
            some (JNum.fin mx)) ∧
      (groupValues sampleNum "mass" fiveRows).Perm
        (fiveRows.map (fun d => sampleNum (getAttr d "mass"))) ∧
      ((groupValues sampleNum "mass" fiveRows).map JNum.toRat).Sorted (· ≤ ·) ∧
      mn = ((groupValues sampleNum "mass" fiveRows).map JNum.toRat).getD 0 0 ∧
      mx = ((groupValues sampleNum "mass" fiveRows).map JNum.toRat).getD
        ((groupValues sampleNum "mass" fiveRows).length - 1) 0 ∧
      (∀ v ∈ (groupValues sampleNum "mass" fiveRows).map JNum.toRat, mn ≤ v ∧ v ≤ mx) ∧
      q1 = quantileR7 ((groupValues sampleNum "mass" fiveRows).map JNum.toRat) (1 / 4) ∧
      md = quantileR7 ((groupValues sampleNum "mass" fiveRows).map JNum.toRat) (1 / 2) ∧
      q3 = quantileR7 ((groupValues sampleNum "mass" fiveRows).map JNum.toRat) (3 / 4) ∧
      mn ≤ q1 ∧ q1 ≤ md ∧ md ≤ q3 ∧ q3 ≤ mx ∧
      JNum.le (JNum.fin mn) (JNum.fin q1) = true ∧
      JNum.le (JNum.fin q1) (JNum.fin md) = true ∧
      JNum.le (JNum.fin md) (JNum.fin q3) = true ∧
      JNum.le (JNum.fin q3) (JNum.fin mx) = true :=
  ⟨by decide, by decide,
    fun d hd => exists_fin_of_isFinite _
      ((by decide! : ∀ d ∈ fiveRows, (sampleNum (getAttr d "mass")).isFinite = true ∧
        -overflowLimit < (sampleNum (getAttr d "mass")).toRat ∧
        (sampleNum (getAttr d "mass")).toRat < overflowLimit) d hd),
    by decide!,
    boxPlotStatistics_ordered_of_finite sampleNum "mass" "species" fiveRows
      (some "A", fiveRows) (by decide) (by decide)
      (fun d hd => exists_fin_of_isFinite _
        ((by decide! : ∀ d ∈ fiveRows, (sampleNum (getAttr d "mass")).isFinite = true ∧
          -overflowLimit < (sampleNum (getAttr d "mass")).toRat ∧
          (sampleNum (getAttr d "mass")).toRat < overflowLimit) d hd))
      (by decide!)⟩

/-- The C3 statement on the sample page for the selection of three rows, at its
first group `B` of two rows: the sorted values are 1 and 2, and `drawBoxPlot`
leaves the axis, the two circles of `B` at 80 in that order, then the circle of
`A` at 360. -/
theorem small_group_draws_markers_witness :
    (d3group threeRows (fun d => getAttr d samplePage.colorAttribute))[0]? =
      some (some "B", [sampleRow "B" "X" "2" "3", sampleRow "B" "Y" "1" "1"]) ∧
    [sampleRow "B" "X" "2" "3", sampleRow "B" "Y" "1" "1"].length < 5 ∧
    groupValues sampleNum "mass" [sampleRow "B" "X" "2" "3", sampleRow "B" "Y" "1" "1"] =
      [JNum.fin 1, JNum.fin 2] ∧
    (drawBoxPlot sampleNum threeRows samplePage).boxPlot =
      some [Node.axisLeft 50
          { domain0 := JNum.fin 1, domain1 := JNum.fin 2, range0 := 350, range1 := 50 },
        Node.mark (Mark.circle (JNum.fin 80) (JNum.fin 350) 4 "#1f77b4"),
        Node.mark (Mark.circle (JNum.fin 80) (JNum.fin 50) 4 "#1f77b4"),
        Node.mark (Mark.circle (JNum.fin 360) (JNum.fin 350) 4 "#ff7f0e")] ∧
    (drawBoxPlot sampleNum threeRows samplePage).boxPlot =
      some (boxPlotLoopState sampleNum samplePage.boxplotAttribute samplePage.colorAttribute
        threeRows
        (d3group threeRows (fun d => getAttr d samplePage.colorAttribute)).length).2 ∧
    (boxPlotLoopState sampleNum samplePage.boxplotAttribute samplePage.colorAttribute
        threeRows (0 + 1)).2 =
      (boxPlotLoopState sampleNum samplePage.boxplotAttribute samplePage.colorAttribute
        threeRows 0).2 ++
        (groupValues sampleNum samplePage.boxplotAttribute
          [sampleRow "B" "X" "2" "3", sampleRow "B" "Y" "1" "1"]).map (fun value => Node.mark
          (Mark.circle
            (JNum.fin (((0 : ℕ) : ℚ) * boxWidth 600
              (d3group threeRows (fun d => getAttr d samplePage.colorAttribute)).length + 80))
            ((boxPlotYScale sampleNum samplePage.boxplotAttribute threeRows).apply value) 4
            (schemeCategory10.getD (0 % 10) ""))) ∧
    (∃ after : List Node,
      (boxPlotLoopState sampleNum samplePage.boxplotAttribute samplePage.colorAttribute
        threeRows
        (d3group threeRows (fun d => getAttr d samplePage.colorAttribute)).length).2 =
      (boxPlotLoopState sampleNum samplePage.boxplotAttribute samplePage.colorAttribute
        threeRows (0 + 1)).2 ++ after) ∧
    (groupValues sampleNum samplePage.boxplotAttribute
        [sampleRow "B" "X" "2" "3", sampleRow "B" "Y" "1" "1"]).Perm
      ([sampleRow "B" "X" "2" "3", sampleRow "B" "Y" "1" "1"].map
        (fun d => sampleNum (getAttr d samplePage.boxplotAttribute))) ∧
    (groupValues sampleNum samplePage.boxplotAttribute
        [sampleRow "B" "X" "2" "3", sampleRow "B" "Y" "1" "1"]).length =
      [sampleRow "B" "X" "2" "3", sampleRow "B" "Y" "1" "1"].length ∧
    [sampleRow "B" "X" "2" "3", sampleRow "B" "Y" "1" "1"] ≠ [] ∧
    ((∀ d ∈ [sampleRow "B" "X" "2" "3", sampleRow "B" "Y" "1" "1"],
        (sampleNum (getAttr d samplePage.boxplotAttribute)).isNaN = false) →
      (groupValues sampleNum samplePage.boxplotAttribute
        [sampleRow "B" "X" "2" "3", sampleRow "B" "Y" "1" "1"]).Sorted
          (fun a b => JNum.le a b = true)) :=
  ⟨by decide, by decide, by decide!, by decide!,
    small_group_draws_markers sampleNum samplePage threeRows 0
      (some "B", [sampleRow "B" "X" "2" "3", sampleRow "B" "Y" "1" "1"])
      (by decide) (by decide)⟩

end Boyang
